import Mathlib

/-!
Verification of the JUNE population-distribution engine:
care-home distributor, school distributor and station geography,
modelled shallowly from the Python source.
-/

namespace June

/-- A person, identified by `pid` (standing for Python object identity),
with an integer age and a sex character as in the source (`"m"`/`"f"`). -/
structure Person where
  pid : Nat
  age : Nat
  sex : Char
deriving DecidableEq, Repr

instance : Inhabited Person := ⟨⟨0, 0, 'm'⟩⟩

/-- The `people_by_age` dictionary of `CareHomeDistributor`: an insertion-ordered
map from exact age to the list of pooled people of that age
(`defaultdict(list)` in the source, built by `_create_people_dicts`). -/
abbrev PeopleByAge := List (Nat × List Person)

/-- Dictionary lookup; a missing key yields `[]`, as for `defaultdict(list)`. -/
def lookupAge (d : PeopleByAge) (a : Nat) : List Person :=
  match d.find? (fun e => e.1 == a) with
  | some e => e.2
  | none => []

/-- Whether the dictionary holds an entry for age `a`. -/
def hasKey (d : PeopleByAge) (a : Nat) : Bool :=
  (d.find? (fun e => e.1 == a)).isSome

/-- The `available_people` list of `_find_person_in_age_range`: concatenation of
the buckets for ages `age_1, ..., age_2` (inclusive), in age order
(`for age in range(age_1, age_2 + 1): available_people += people_by_age[age]`). -/
def availablePeople (d : PeopleByAge) (a1 a2 : Nat) : List Person :=
  (List.range' a1 (a2 + 1 - a1)).flatMap (fun a => lookupAge d a)

/-- Removal step of `_find_person_in_age_range`: erase the chosen person from
the bucket of their age (`people_by_age[chosen_person.age].remove(chosen_person)`),
and delete the bucket if it became empty
(`if not people_by_age[chosen_person.age]: del people_by_age[chosen_person.age]`). -/
def removePerson (d : PeopleByAge) (p : Person) : PeopleByAge :=
  d.filterMap (fun e =>
    if e.1 = p.age then
      if (e.2.erase p).isEmpty then none else some (e.1, e.2.erase p)
    else some e)

/-- `_find_person_in_age_range(people_by_age, age_1, age_2)`.  The call to
`randint(0, len(available_people) - 1)` is modelled by the oracle value `k`
reduced modulo the list length, so that every `k` below the length denotes
one of the equiprobable outcomes.  Returns the chosen person and the updated
dictionary, or `none` when no pooled person's age is in range (the source
returns `None` and leaves the dictionary unchanged, apart from empty
`defaultdict` buckets materialised for probed ages, which are unobservable
through lookups). -/
def findPersonInAgeRange (d : PeopleByAge) (a1 a2 k : Nat) :
    Option (Person × PeopleByAge) :=
  let available := availablePeople d a1 a2
  if available.isEmpty then none
  else
    let chosen := available.getD (k % available.length) default
    some (chosen, removePerson d chosen)

/-- Well-formedness of a `people_by_age` dictionary, as guaranteed by
`_create_people_dicts`: each bucket holds exactly people of its key age,
keys are unique (it is a Python dict) and buckets hold distinct people
(distinct Python objects never compare equal). -/
def WFDict (d : PeopleByAge) : Prop :=
  (∀ e ∈ d, ∀ p ∈ e.2, p.age = e.1) ∧
    (d.map Prod.fst).Nodup ∧ ∀ e ∈ d, e.2.Nodup

instance (d : PeopleByAge) : Decidable (WFDict d) := by
  unfold WFDict; infer_instance

/-- Total number of pooled people in a dictionary. -/
def poolSize (d : PeopleByAge) : Nat :=
  (d.map (fun e => e.2.length)).sum

/-- A care home: declared residential capacity `n_residents` and the list of
residents placed so far. -/
structure CareHome where
  nResidents : Nat
  residents : List Person
deriving DecidableEq, Repr

/-- Modelled from the spec: `CareHome.add` is defined in `june.groups.care_home`,
outside the distributor sources.  The spec says assignment mutates facility
membership only, so adding a resident appends them to the member list. -/
def CareHome.add (c : CareHome) (p : Person) : CareHome :=
  { c with residents := c.residents ++ [p] }

/-- One entry of `areas_with_care_homes` paired with its per-area pool
(one sex's dictionary out of `areas_dicts`). -/
structure AreaCH where
  careHome : CareHome
  pool : PeopleByAge
deriving DecidableEq, Repr

/-- One age band of the communal-residents table: parsed inclusive bounds and
its remaining target count (`communal_men_sorted[age_range]`). -/
structure Band where
  a1 : Nat
  a2 : Nat
  target : Int
deriving DecidableEq, Repr

/-- The inner `for age_range in communal_men_sorted` loop of
`populate_care_homes_in_super_areas`, for one area whose capacity check
already passed: for each band in order, if the target is positive, draw one
person in range; on success add them to the care home, decrement the target
and record progress.  `rs` is the stream of `randint` outcomes and `t` the
count of draws made so far. -/
def fillBandsForArea (rs : Nat → Nat) :
    List Band → CareHome → PeopleByAge → Nat →
      List Band × CareHome × PeopleByAge × Nat × Bool
  | [], ch, pool, t => ([], ch, pool, t, false)
  | b :: bs, ch, pool, t =>
    if b.target ≤ 0 then
      let r := fillBandsForArea rs bs ch pool t
      (b :: r.1, r.2.1, r.2.2.1, r.2.2.2.1, r.2.2.2.2)
    else
      match findPersonInAgeRange pool b.a1 b.a2 (rs t) with
      | none =>
        let r := fillBandsForArea rs bs ch pool t
        (b :: r.1, r.2.1, r.2.2.1, r.2.2.2.1, r.2.2.2.2)
      | some (p, pool') =>
        let r := fillBandsForArea rs bs (ch.add p) pool' (t + 1)
        ({ b with target := b.target - 1 } :: r.1, r.2.1, r.2.2.1, r.2.2.2.1, true)

/-- One visit to one area inside a pass: the capacity check
`if len(care_home.residents) < care_home.n_residents` guards the whole band
loop (it is not re-checked between bands). -/
def passOneArea (rs : Nat → Nat) (a : AreaCH) (bands : List Band) (t : Nat) :
    AreaCH × List Band × Nat × Bool :=
  if a.careHome.residents.length < a.careHome.nResidents then
    let r := fillBandsForArea rs bands a.careHome a.pool t
    (⟨r.2.1, r.2.2.1⟩, r.1, r.2.2.2.1, r.2.2.2.2)
  else (a, bands, t, false)

/-- One full pass of `for i, area in enumerate(areas_with_care_homes)`:
the shared band targets are threaded through the areas in order. -/
def passAreas (rs : Nat → Nat) :
    List AreaCH → List Band → Nat → List AreaCH × List Band × Nat × Bool
  | [], bands, t => ([], bands, t, false)
  | a :: as, bands, t =>
    let r1 := passOneArea rs a bands t
    let r2 := passAreas rs as r1.2.1 r1.2.2.1
    (r1.1 :: r2.1, r2.2.1, r2.2.2.1, r1.2.2.2 || r2.2.2.2)

/-- The `while men_left` loop: repeat passes while the previous pass made at
least one assignment.  The loop in the source has no fuel; `fuel` bounds the
number of passes and `none` reports exhaustion, which the termination theorem
shows cannot happen with fuel exceeding the pool population. -/
def fillLoopFuel (rs : Nat → Nat) :
    Nat → List AreaCH → List Band → Nat →
      Option (List AreaCH × List Band × Nat)
  | 0, _, _, _ => none
  | fuel + 1, as, bands, t =>
    let r := passAreas rs as bands t
    if r.2.2.2 then fillLoopFuel rs fuel r.1 r.2.1 r.2.2.1
    else some (r.1, r.2.1, r.2.2.1)

/-- One full pass as a state transformer (dropping the progress flag). -/
def stepOnce (rs : Nat → Nat) (s : List AreaCH × List Band × Nat) :
    List AreaCH × List Band × Nat :=
  ((passAreas rs s.1 s.2.1 s.2.2).1, (passAreas rs s.1 s.2.1 s.2.2).2.1,
    (passAreas rs s.1 s.2.1 s.2.2).2.2.1)

/-- The state reached after `n` full passes. -/
def passState (rs : Nat → Nat) (s : List AreaCH × List Band × Nat) :
    Nat → List AreaCH × List Band × Nat
  | 0 => s
  | n + 1 => stepOnce rs (passState rs s n)

/-- Whether the `(n+1)`-th pass performs at least one assignment. -/
def passProg (rs : Nat → Nat) (s : List AreaCH × List Band × Nat) (n : Nat) :
    Bool :=
  (passAreas rs (passState rs s n).1 (passState rs s n).2.1
    (passState rs s n).2.2).2.2.2

/-- Total pooled population over all areas. -/
def totalPool (as : List AreaCH) : Nat :=
  (as.map (fun a => poolSize a.pool)).sum

/-- An age-band label, e.g. `"75-84"`, as its character list. -/
abbrev AgeKey := List Char

/-- `age_range[0]` of a label string: its first character, whose code is what
`np.argsort` compares for single characters. -/
def headCharCode (k : AgeKey) : Nat := (k.headD ' ').toNat

def insertAscBy (f : AgeKey → Nat) (k : AgeKey) : List AgeKey → List AgeKey
  | [] => [k]
  | x :: xs => if f k ≤ f x then k :: x :: xs else x :: insertAscBy f k xs

def sortAscBy (f : AgeKey → Nat) (l : List AgeKey) : List AgeKey :=
  l.foldr (insertAscBy f) []

/-- The key ordering of `populate_care_homes_in_super_areas`:
`np.array(list(keys))[np.argsort([k[0] for k in keys])[::-1]]`, i.e. the keys
sorted by FIRST CHARACTER ascending and then reversed (ties are in
unspecified `np.argsort` order; the keys we reason about are distinct in
their first character). -/
def sortAgeKeysDesc (keys : List AgeKey) : List AgeKey :=
  (sortAscBy headCharCode keys).reverse

def digitsToNat (cs : List Char) : Nat :=
  cs.foldl (fun n c => 10 * n + (c.toNat - 48)) 0

/-- `age1, age2 = list(map(int, age_range.split("-")))`. -/
def parseBandKey (k : AgeKey) : Nat × Nat :=
  (digitsToNat (k.takeWhile (fun c => c ≠ '-')),
   digitsToNat ((k.dropWhile (fun c => c ≠ '-')).drop 1))

/-- The integer lower bound of an age-band label (what the spec's sort policy
is stated in terms of). -/
def bandLowerBound (k : AgeKey) : Nat := (parseBandKey k).1

def lookupStat (stats : List (AgeKey × Int)) (k : AgeKey) : Int :=
  match stats.find? (fun e => e.1 == k) with
  | some e => e.2
  | none => 0

/-- `_create_people_dicts(area)`: bucket the area's people by exact age,
separately for men and women, preserving encounter order. -/
def addToDict (d : PeopleByAge) (p : Person) : PeopleByAge :=
  if hasKey d p.age then
    d.map (fun e => if e.1 = p.age then (e.1, e.2 ++ [p]) else e)
  else d ++ [(p.age, [p])]

def createPeopleDicts (people : List Person) : PeopleByAge × PeopleByAge :=
  people.foldl
    (fun md p =>
      if p.sex = 'm' then (addToDict md.1 p, md.2) else (md.1, addToDict md.2 p))
    ([], [])

/-- The per-sex band list as built by the source: keys sorted by
`np.argsort` on first characters, descending, each with its parsed bounds and
its target count from the communal-residents table. -/
def bandsFromStats (stats : List (AgeKey × Int)) : List Band :=
  (sortAgeKeysDesc (stats.map Prod.fst)).map
    (fun k => ⟨(parseBandKey k).1, (parseBandKey k).2, lookupStat stats k⟩)

/-- The men's half of `populate_care_homes_in_super_areas` for one super area
(the women's half is textually identical with the other dictionary): build
the sorted band table and the per-area pools, then run fill passes to the
fixed point.  The area list is taken after the source's `shuffle`. -/
def populateCareHomesMen (stats : List (AgeKey × Int))
    (areas : List (CareHome × List Person)) (rs : Nat → Nat) :
    Option (List AreaCH × List Band × Nat) :=
  let as := areas.map (fun a => ⟨a.1, (createPeopleDicts a.2).1⟩)
  fillLoopFuel rs (totalPool as + 1) as (bandsFromStats stats) 0

/-! ### School distributor -/

/-- A school: total capacity `n_pupils_max`, current occupancy `n_pupils`,
admitted age range, per-year subgroup sizes (`len(school.subgroups[i].people)`)
and the students added by this engine. -/
structure School where
  nPupilsMax : Nat
  nPupils : Nat
  ageMin : Nat
  ageMax : Nat
  subgroupSizes : List Nat
  students : List Nat
deriving DecidableEq, Repr

instance : Inhabited School := ⟨⟨0, 0, 0, 0, [], []⟩⟩

/-- Modelled from the spec: `School.add(person, SubgroupType.students)` is
defined in `june.groups.school`, outside the distributor sources.  The spec
says placement mutates facility membership, so it appends the person and
`n_pupils` grows by one. -/
def School.addStudent (s : School) (pid : Nat) : School :=
  { s with nPupils := s.nPupils + 1, students := s.students ++ [pid] }

def getSchool (store : List School) (i : Nat) : School := store.getD i default

def addStudentAt (store : List School) (i pid : Nat) : List School :=
  store.set i ((getSchool store i).addStudent pid)

/-- The `is_school_full` dictionary: one boolean per age group with a school
tree, initialised to `False` in `distribute_kids_to_school`. -/
abbrev Memo := List (Nat × Bool)

def lookupMemo (m : Memo) (a : Nat) : Option Bool :=
  (m.find? (fun e => e.1 == a)).map Prod.snd

def setMemo (m : Memo) (a : Nat) (b : Bool) : Memo :=
  m.map (fun e => if e.1 = a then (a, b) else e)

/-- `closest_schools_by_age`: per age group, the nearest-school candidate list
as indices into the school store. -/
abbrev ClosestByAge := List (Nat × List Nat)

def lookupClosest (cba : ClosestByAge) (a : Nat) : Option (List Nat) :=
  (cba.find? (fun e => e.1 == a)).map Prod.snd

/-- The school distributor's configuration (`neighbour_schools`, `age_range`,
`mandatory_age_range`). -/
structure SchoolConfig where
  neighbourSchools : Nat
  ageRange : Nat × Nat
  mandatoryAgeRange : Nat × Nat

/-- The guard of `distribute_mandatory_kids_to_school`:
`person.age <= mandatory_school_age_range[1] and person.age >= mandatory_school_age_range[0]`. -/
def mandatoryEligible (cfg : SchoolConfig) (age : Nat) : Bool :=
  decide (age ≤ cfg.mandatoryAgeRange.2) && decide (cfg.mandatoryAgeRange.1 ≤ age)

/-- The guard of `distribute_non_mandatory_kids_to_school`:
`age_range[0] < age < mandatory[0] or mandatory[1] < age < age_range[1]`
(all four comparisons STRICT in the source). -/
def nonMandatoryEligible (cfg : SchoolConfig) (age : Nat) : Bool :=
  (decide (cfg.ageRange.1 < age) && decide (age < cfg.mandatoryAgeRange.1)) ||
    (decide (cfg.mandatoryAgeRange.2 < age) && decide (age < cfg.ageRange.2))

/-- The `for i in range(self.neighbour_schools)` scan of
`distribute_mandatory_kids_to_school` for one person, given that the memo was
`False`.  Arguments: iterations left, current index `i`, oracle counter,
current value of the loop variable `school`, and whether the memo was set.
On a full school the source sets `is_school_full[age] = True`, draws
`np.random.randint(0, min(len(cs), N))` and overwrites `school` with that
random candidate BEFORE moving on; hitting a non-full school breaks with
that school; exhausting the range (or hitting `i >= len(cs)`) keeps the last
value of `school`. -/
def scanMandatory (store : List School) (cs : List Nat) (N : Nat)
    (rs : Nat → Nat) : Nat → Nat → Nat → Nat → Bool → Nat × Bool × Nat
  | 0, _, t, cur, ms => (cur, ms, t)
  | n + 1, i, t, cur, ms =>
    if cs.length ≤ i then (cur, ms, t)
    else
      let s := cs.getD i 0
      if (getSchool store s).nPupilsMax ≤ (getSchool store s).nPupils then
        scanMandatory store cs N rs n (i + 1) (t + 1)
          (cs.getD (rs t % min cs.length N) 0) true
      else (s, ms, t)

/-- Processing of one person by `distribute_mandatory_kids_to_school`:
skip non-mandatory ages and ages with no school tree; if the memo says full,
assign a uniformly random candidate; otherwise scan for the first school with
vacancy and add the person to the resulting `school`. -/
def mandatoryStep (cfg : SchoolConfig) (cba : ClosestByAge) (rs : Nat → Nat)
    (st : List School × Memo × Nat) (p : Person) : List School × Memo × Nat :=
  if mandatoryEligible cfg p.age then
    match lookupMemo st.2.1 p.age with
    | none => st
    | some true =>
      let cs := (lookupClosest cba p.age).getD []
      let idx := cs.getD (rs st.2.2 % min cs.length cfg.neighbourSchools) 0
      (addStudentAt st.1 idx p.pid, st.2.1, st.2.2 + 1)
    | some false =>
      let cs := (lookupClosest cba p.age).getD []
      let r := scanMandatory st.1 cs cfg.neighbourSchools rs
        cfg.neighbourSchools 0 st.2.2 0 false
      (addStudentAt st.1 r.1 p.pid,
        if r.2.1 then setMemo st.2.1 p.age true else st.2.1, r.2.2)
  else st

/-- `distribute_mandatory_kids_to_school` over `area.people`. -/
def distributeMandatoryKidsToSchool (cfg : SchoolConfig) (cba : ClosestByAge)
    (rs : Nat → Nat) (people : List Person)
    (st : List School × Memo × Nat) : List School × Memo × Nat :=
  people.foldl (mandatoryStep cfg cba rs) st

/-- The fullness test of `distribute_non_mandatory_kids_to_school`:
`school.n_pupils >= school.n_pupils_max or n_pupils_age >=
school.n_pupils_max / (school.age_max - school.age_min)` with
`n_pupils_age = len(school.subgroups[person.age - school.age_min + 1].people)`.
Python's float division is modelled by exact rational division (candidate
schools admit the person's age, so the year index is non-negative). -/
def cohortFull (s : School) (age : Nat) : Bool :=
  decide (s.nPupilsMax ≤ s.nPupils) ||
    decide ((s.nPupilsMax : ℚ) / ((s.ageMax : ℚ) - (s.ageMin : ℚ)) ≤
      ((s.subgroupSizes.getD (age - s.ageMin + 1) 0 : ℚ)))

/-- The candidate scan of `distribute_non_mandatory_kids_to_school`: walk the
nearest-N list; break on the first school that is not cohort-full, else keep
walking.  The loop variable `school` retains the LAST examined candidate when
every candidate is full, and the person is added to it unconditionally after
the loop. -/
def scanNonMandatory (store : List School) (cs : List Nat) (age : Nat) :
    Nat → Nat → Nat → Nat
  | 0, _, cur => cur
  | n + 1, i, cur =>
    if cs.length ≤ i then cur
    else
      let s := cs.getD i 0
      if cohortFull (getSchool store s) age then
        scanNonMandatory store cs age n (i + 1) s
      else s

/-- Processing of one person by `distribute_non_mandatory_kids_to_school`:
skip ineligible ages, ages with no school tree and ages whose memo is `True`;
otherwise scan the candidates and add the person to the school the loop
variable ends on — even when every candidate was full. -/
def nonMandatoryStep (cfg : SchoolConfig) (cba : ClosestByAge)
    (st : List School × Memo) (p : Person) : List School × Memo :=
  if nonMandatoryEligible cfg p.age then
    match lookupMemo st.2 p.age with
    | none => st
    | some true => st
    | some false =>
      let cs := (lookupClosest cba p.age).getD []
      let chosen := scanNonMandatory st.1 cs p.age cfg.neighbourSchools 0 0
      (addStudentAt st.1 chosen p.pid, st.2)
  else st

/-- `distribute_non_mandatory_kids_to_school` over `area.people`. -/
def distributeNonMandatoryKidsToSchool (cfg : SchoolConfig)
    (cba : ClosestByAge) (people : List Person)
    (st : List School × Memo) : List School × Memo :=
  people.foldl (nonMandatoryStep cfg cba) st

/-! ### Worker staffing pools -/

/-- A Python scalar-or-list value as stored in the free-form `sector`,
`sub_sector` and `primary_activity` attributes. -/
inductive PyVal where
  | pynone
  | pyint (n : Int)
  | pystr (s : String)
  | pylist (l : List Int)
deriving DecidableEq, Repr

/-- Python `==` on such values: equal only within the same type; an `int` or
`str` never equals a `list`. -/
def pyEq : PyVal → PyVal → Bool
  | .pynone, .pynone => true
  | .pyint a, .pyint b => a == b
  | .pystr a, .pystr b => a == b
  | .pylist a, .pylist b => a == b
  | _, _ => false

/-- A member of `super_area.workers`. -/
structure Worker where
  wid : Nat
  sector : PyVal
  subSector : PyVal
  primaryActivity : PyVal
deriving DecidableEq, Repr

/-- `self.education_sector_label` default `[2314, 2315, 2316]`. -/
def educationSectorLabel : List Int := [2314, 2315, 2316]

/-- The teacher candidate pool of `distribute_teachers_to_school`:
`[person for person in msoarea.workers if person.sector ==
self.education_sector_label]` — equality of the person's sector against the
WHOLE label list. -/
def teachersOf (workers : List Worker) (label : List Int) : List Worker :=
  workers.filter (fun p => pyEq p.sector (.pylist label))

/-- The carer candidate pool of `distribute_workers_to_care_homes`.
`workersSector` is the configured `workers_sector` attribute of the
distributor; the source filter hard-codes `"Q"` and never consults it. -/
def carersOf (workers : List Worker) (_workersSector : String) : List Worker :=
  workers.filter (fun p =>
    pyEq p.sector (.pystr "Q") && decide (p.primaryActivity = .pynone) &&
      decide (p.subSector = .pynone))

/-! ### Stations and spherical geometry -/

/-- `math.radians`. -/
noncomputable def radiansR (x : ℝ) : ℝ := x * Real.pi / 180

/-- `math.degrees`. -/
noncomputable def degreesR (x : ℝ) : ℝ := x * 180 / Real.pi

/-- `earth_radius = 6371  # km`. -/
def earthRadius : ℝ := 6371

/-- `math.atan2(y, x)`, i.e. the argument of the complex number `x + y i`,
valued in `(-π, π]`. -/
noncomputable def atan2 (y x : ℝ) : ℝ := Complex.arg ⟨x, y⟩

/-- `_haversine_distance(origin, destination)` on degree coordinates. -/
noncomputable def haversineDistance (origin destination : ℝ × ℝ) : ℝ :=
  let dlat := radiansR (destination.1 - origin.1)
  let dlon := radiansR (destination.2 - origin.2)
  let a := Real.sin (dlat / 2) * Real.sin (dlat / 2) +
    Real.cos (radiansR origin.1) * Real.cos (radiansR destination.1) *
      Real.sin (dlon / 2) * Real.sin (dlon / 2)
  let c := 2 * atan2 (Real.sqrt a) (Real.sqrt (1 - a))
  6371 * c

/-- `_add_distance_to_lat_lon(latitude, longitude, distance, bearing)`. -/
noncomputable def addDistanceToLatLon (latitude longitude dist bearing : ℝ) :
    ℝ × ℝ :=
  let lat1 := radiansR latitude
  let lon1 := radiansR longitude
  let lat2 := Real.arcsin (Real.sin lat1 * Real.cos (dist / earthRadius) +
    Real.cos lat1 * Real.sin (dist / earthRadius) * Real.cos bearing)
  let lon2 := lon1 +
    atan2 (Real.sin bearing * Real.sin (dist / earthRadius) * Real.cos lat1)
      (Real.cos (dist / earthRadius) - Real.sin lat1 * Real.sin lat2)
  (degreesR lat2, degreesR lon2)

/-- The position-generating loop of `Stations.for_super_station`: `angle`
starts at `0` and grows by `delta_angle` after each station. -/
noncomputable def stationPositionsAux (hub : ℝ × ℝ) (dist delta : ℝ) :
    Nat → ℝ → List (ℝ × ℝ)
  | 0, _ => []
  | n + 1, angle =>
    addDistanceToLatLon hub.1 hub.2 dist angle ::
      stationPositionsAux hub dist delta n (angle + delta)

/-- The raw `station_position`s generated by `Stations.for_super_station`
with `number_of_stations = n` and `distance_to_super_station = dist`
(each `Station` is subsequently snapped to its closest super area, which is
outside this computation). -/
noncomputable def stationPositions (hub : ℝ × ℝ) (dist : ℝ) (n : Nat) :
    List (ℝ × ℝ) :=
  stationPositionsAux hub dist (2 * Real.pi / n) n 0

/-- A station; its `coordinates` property is its super area's coordinate. -/
structure Station where
  sid : Nat
  coords : ℝ × ℝ

/-- The `Stations` collection: members and the optional `_ball_tree`,
modelled as the list of member coordinates in radians that the tree indexes. -/
structure Stations where
  members : List Station
  ballTree : Option (List (ℝ × ℝ))

/-- `Stations._construct_ball_tree`:
`BallTree(np.array([np.deg2rad(station.coordinates) for station in self]),
metric="haversine")`. -/
noncomputable def constructBallTree (s : Stations) : Stations :=
  { s with
    ballTree := some (s.members.map
      (fun st => (radiansR st.coords.1, radiansR st.coords.2))) }

/-- sklearn's haversine metric on radian coordinates: the central angle. -/
noncomputable def haversineMetricRad (a b : ℝ × ℝ) : ℝ :=
  2 * Real.arcsin (Real.sqrt (Real.sin ((b.1 - a.1) / 2) ^ 2 +
    Real.cos a.1 * Real.cos b.1 * Real.sin ((b.2 - a.2) / 2) ^ 2))

/-- Index of the first minimal element of a distance list (the index a
nearest-neighbour query returns). -/
noncomputable def argminIdx : List ℝ → Nat
  | [] => 0
  | [_] => 0
  | x :: y :: ys =>
    let j := argminIdx (y :: ys)
    if (y :: ys).getD j 0 < x then j + 1 else 0

/-- `self._ball_tree.query(np.deg2rad(coordinates), k=1)`: the index of the
tree point nearest to the query under the haversine metric. -/
noncomputable def queryNearestIdx (tree : List (ℝ × ℝ)) (q : ℝ × ℝ) : Nat :=
  argminIdx (tree.map (fun c => haversineMetricRad c q))

/-- `Stations.get_closest_station(coordinates)`: raises
`ValueError("Stations initialized without a BallTree")` when the tree was
never constructed; otherwise indexes `self[idx]` with the query result
(the impossible out-of-range case surfaces the `IndexError`). -/
noncomputable def getClosestStation (s : Stations) (coords : ℝ × ℝ) :
    Except String Station :=
  match s.ballTree with
  | none => .error "Stations initialized without a BallTree"
  | some tree =>
    match s.members.get?
        (queryNearestIdx tree (radiansR coords.1, radiansR coords.2)) with
    | some st => .ok st
    | none => .error "IndexError"

/-- The age-band label `"80-89"` as a character list. -/
def key80_89 : AgeKey := ['8', '0', '-', '8', '9']

/-- The age-band label `"70-79"` as a character list. -/
def key70_79 : AgeKey := ['7', '0', '-', '7', '9']

/-- The age-band label `"15-19"` as a character list. -/
def key15_19 : AgeKey := ['1', '5', '-', '1', '9']

/-- The age-band label `"5-9"` as a character list. -/
def key5_9 : AgeKey := ['5', '-', '9']

lemma lookupAge_nil (a : Nat) : lookupAge [] a = [] := rfl

lemma lookupAge_cons (e : Nat × List Person) (rest : PeopleByAge) (a : Nat) :
    lookupAge (e :: rest) a = if e.1 = a then e.2 else lookupAge rest a := by
  by_cases h : e.1 = a
  · simp [lookupAge, List.find?_cons_of_pos, h]
  · simp only [lookupAge, List.find?]
    have : (e.1 == a) = false := by simp [h]
    simp [this, h]

lemma WFDict_cons {e : Nat × List Person} {rest : PeopleByAge}
    (h : WFDict (e :: rest)) : WFDict rest := by
  obtain ⟨h1, h2, h3⟩ := h
  exact ⟨fun x hx => h1 x (List.mem_cons_of_mem e hx),
    (List.nodup_cons.mp h2).2, fun x hx => h3 x (List.mem_cons_of_mem e hx)⟩

lemma age_eq_of_mem_lookupAge {d : PeopleByAge} {p : Person} {a : Nat}
    (hwf : ∀ e ∈ d, ∀ q ∈ e.2, q.age = e.1) (hp : p ∈ lookupAge d a) :
    p.age = a := by
  induction d with
  | nil => simp [lookupAge_nil] at hp
  | cons e rest ih =>
    rw [lookupAge_cons] at hp
    by_cases h : e.1 = a
    · simp only [h, if_pos rfl] at hp
      rw [← h]
      exact hwf e (List.mem_cons_self e rest) p hp
    · simp only [if_neg h] at hp
      exact ih (fun x hx => hwf x (List.mem_cons_of_mem e hx)) hp

/-- Membership in `available_people` is exactly: the person's age is in the
inclusive band and they sit in their age bucket of the pool. -/
lemma mem_availablePeople {d : PeopleByAge} {p : Person} {a1 a2 : Nat}
    (hwf : ∀ e ∈ d, ∀ q ∈ e.2, q.age = e.1) :
    p ∈ availablePeople d a1 a2 ↔
      a1 ≤ p.age ∧ p.age ≤ a2 ∧ p ∈ lookupAge d p.age := by
  unfold availablePeople
  rw [List.mem_flatMap]
  constructor
  · rintro ⟨a, ha, hp⟩
    have hage := age_eq_of_mem_lookupAge hwf hp
    subst hage
    rw [List.mem_range'_1] at ha
    exact ⟨ha.1, by omega, hp⟩
  · rintro ⟨h1, h2, hp⟩
    refine ⟨p.age, ?_, hp⟩
    rw [List.mem_range'_1]
    omega

/-- `removePerson` does nothing on a dictionary with no bucket of the
person's age. -/
lemma removePerson_cons (e : Nat × List Person) (rest : PeopleByAge) (p : Person) :
    removePerson (e :: rest) p =
      if e.1 = p.age then
        (if (e.2.erase p).isEmpty then removePerson rest p
         else (e.1, e.2.erase p) :: removePerson rest p)
      else e :: removePerson rest p := by
  unfold removePerson
  rw [List.filterMap_cons]
  by_cases h : e.1 = p.age
  · by_cases hemp : (e.2.erase p).isEmpty <;> simp [h, hemp]
  · simp [h]

lemma removePerson_of_not_key {d : PeopleByAge} {p : Person}
    (h : ∀ e ∈ d, e.1 ≠ p.age) : removePerson d p = d := by
  induction d with
  | nil => rfl
  | cons e rest ih =>
    rw [removePerson_cons, if_neg (h e (List.mem_cons_self e rest)),
      ih (fun x hx => h x (List.mem_cons_of_mem e hx))]

lemma poolSize_cons (e : Nat × List Person) (rest : PeopleByAge) :
    poolSize (e :: rest) = e.2.length + poolSize rest := by
  simp [poolSize]

/-- In a key-unique dictionary headed by an entry of key `a`, no later entry
has key `a`. -/
lemma no_key_in_rest {e : Nat × List Person} {rest : PeopleByAge} {a : Nat}
    (hnd : (List.map Prod.fst (e :: rest)).Nodup) (he : e.1 = a) :
    ∀ x ∈ rest, x.1 ≠ a := by
  intro x hx hxk
  rw [List.map_cons, List.nodup_cons] at hnd
  refine hnd.1 ?_
  rw [he, ← hxk]
  exact List.mem_map_of_mem Prod.fst hx

/-- Drawing a person who is in their bucket shrinks the pool by exactly one. -/
lemma poolSize_removePerson {d : PeopleByAge} {p : Person}
    (hwf : WFDict d) (hp : p ∈ lookupAge d p.age) :
    poolSize (removePerson d p) + 1 = poolSize d := by
  induction d with
  | nil => simp [lookupAge_nil] at hp
  | cons e rest ih =>
    rw [lookupAge_cons] at hp
    rw [removePerson_cons]
    by_cases h : e.1 = p.age
    · rw [if_pos h]
      rw [if_pos h] at hp
      have hrm : removePerson rest p = rest :=
        removePerson_of_not_key (no_key_in_rest hwf.2.1 h)
      have hlen := List.length_erase_of_mem hp
      have hne : e.2.length ≠ 0 := by
        intro h0
        rw [List.length_eq_zero] at h0
        simp [h0] at hp
      by_cases hemp : (e.2.erase p).isEmpty
      · rw [if_pos hemp, hrm, poolSize_cons]
        rw [List.isEmpty_iff] at hemp
        rw [hemp] at hlen
        simp only [List.length_nil] at hlen
        omega
      · rw [if_neg hemp, hrm, poolSize_cons, poolSize_cons]
        show (e.2.erase p).length + poolSize rest + 1 = e.2.length + poolSize rest
        omega
    · rw [if_neg h]
      rw [if_neg h] at hp
      rw [poolSize_cons, poolSize_cons]
      have := ih (WFDict_cons hwf) hp
      omega

lemma lookupAge_eq_nil_of_no_key {d : PeopleByAge} {a : Nat}
    (h : ∀ e ∈ d, e.1 ≠ a) : lookupAge d a = [] := by
  induction d with
  | nil => rfl
  | cons e rest ih =>
    rw [lookupAge_cons, if_neg (h e (List.mem_cons_self e rest))]
    exact ih (fun x hx => h x (List.mem_cons_of_mem e hx))

/-- After `removePerson`, the bucket of the person's age lost its first copy of
the person and every other bucket is unchanged (a deleted empty bucket and a
missing key both look up to `[]`). -/
lemma lookupAge_removePerson {d : PeopleByAge} {p : Person}
    (hwf : WFDict d) (a : Nat) :
    lookupAge (removePerson d p) a =
      if a = p.age then (lookupAge d a).erase p else lookupAge d a := by
  induction d with
  | nil =>
    show lookupAge [] a = _
    rw [lookupAge_nil]
    by_cases h : a = p.age <;> simp [h]
  | cons e rest ih =>
    have hrec := ih (WFDict_cons hwf)
    rw [removePerson_cons]
    by_cases he : e.1 = p.age
    · have hrm : removePerson rest p = rest :=
        removePerson_of_not_key (no_key_in_rest hwf.2.1 he)
      rw [if_pos he]
      by_cases hemp : (e.2.erase p).isEmpty
      · rw [if_pos hemp, hrm]
        by_cases ha : a = p.age
        · rw [if_pos ha, lookupAge_cons, if_pos (by omega : e.1 = a),
            lookupAge_eq_nil_of_no_key
              (fun x hx => ha ▸ no_key_in_rest hwf.2.1 he x hx)]
          rw [List.isEmpty_iff] at hemp
          exact hemp.symm
        · rw [if_neg ha, lookupAge_cons,
            if_neg (fun hk : e.1 = a => ha (by omega))]
      · rw [if_neg hemp, lookupAge_cons, lookupAge_cons]
        by_cases ha : a = p.age
        · rw [if_pos ha, if_pos (by omega : e.1 = a), if_pos (by omega : e.1 = a)]
        · rw [if_neg ha, if_neg (fun hk : e.1 = a => ha (by omega)),
            if_neg (fun hk : e.1 = a => ha (by omega)), hrm]
    · rw [if_neg he, lookupAge_cons, lookupAge_cons]
      by_cases hea : e.1 = a
      · have ha : ¬a = p.age := fun hh => he (by omega)
        rw [if_pos hea, if_neg ha, if_pos hea]
      · rw [if_neg hea, if_neg hea, hrec]

/-- Every bucket of a well-formed pool is duplicate-free. -/
lemma nodup_lookupAge {d : PeopleByAge} (hwf : WFDict d) (a : Nat) :
    (lookupAge d a).Nodup := by
  induction d with
  | nil => simp [lookupAge_nil]
  | cons e rest ih =>
    rw [lookupAge_cons]
    by_cases h : e.1 = a
    · rw [if_pos h]
      exact hwf.2.2 e (List.mem_cons_self e rest)
    · rw [if_neg h]
      exact ih (WFDict_cons hwf)

/-- `removePerson` preserves well-formedness of the pool dictionary. -/
lemma WFDict_removePerson {d : PeopleByAge} {p : Person} (hwf : WFDict d) :
    WFDict (removePerson d p) := by
  obtain ⟨h1, h2, h3⟩ := hwf
  refine ⟨?_, ?_, ?_⟩
  · intro e' he' q hq
    rw [removePerson, List.mem_filterMap] at he'
    obtain ⟨e, he, hfe⟩ := he'
    by_cases h : e.1 = p.age
    · simp only [if_pos h] at hfe
      by_cases hemp : (e.2.erase p).isEmpty
      · simp [hemp] at hfe
      · simp only [hemp, Bool.false_eq_true, if_neg, not_false_iff,
          Option.some.injEq] at hfe
        rw [← hfe] at hq ⊢
        exact h1 e he q (List.mem_of_mem_erase hq)
    · simp only [if_neg h, Option.some.injEq] at hfe
      rw [← hfe] at hq ⊢
      exact h1 e he q hq
  · have hsub : List.Sublist ((removePerson d p).map Prod.fst)
        (d.map Prod.fst) := by
      clear h1 h2 h3
      induction d with
      | nil => simp [removePerson]
      | cons e rest ih =>
        rw [removePerson_cons]
        by_cases h : e.1 = p.age
        · rw [if_pos h]
          by_cases hemp : (e.2.erase p).isEmpty
          · rw [if_pos hemp, List.map_cons]
            exact ih.cons _
          · rw [if_neg hemp, List.map_cons, List.map_cons]
            exact ih.cons₂ _
        · rw [if_neg h, List.map_cons, List.map_cons]
          exact ih.cons₂ _
    exact h2.sublist hsub
  · intro e' he'
    rw [removePerson, List.mem_filterMap] at he'
    obtain ⟨e, he, hfe⟩ := he'
    by_cases h : e.1 = p.age
    · simp only [if_pos h] at hfe
      by_cases hemp : (e.2.erase p).isEmpty
      · simp [hemp] at hfe
      · simp only [hemp, Bool.false_eq_true, if_neg, not_false_iff,
          Option.some.injEq] at hfe
        rw [← hfe]
        exact (h3 e he).erase p
    · simp only [if_neg h, Option.some.injEq] at hfe
      rw [← hfe]
      exact h3 e he

/-- A drawn person is gone from every bucket: they can never be redrawn. -/
lemma not_mem_lookupAge_removePerson {d : PeopleByAge} {p : Person}
    (hwf : WFDict d) (a : Nat) : p ∉ lookupAge (removePerson d p) a := by
  intro hmem
  rw [lookupAge_removePerson hwf] at hmem
  by_cases ha : a = p.age
  · rw [if_pos ha] at hmem
    exact (nodup_lookupAge hwf a).not_mem_erase hmem
  · rw [if_neg ha] at hmem
    exact ha (age_eq_of_mem_lookupAge hwf.1 hmem).symm

lemma hasKey_cons (e : Nat × List Person) (rest : PeopleByAge) (a : Nat) :
    hasKey (e :: rest) a = if e.1 = a then true else hasKey rest a := by
  by_cases h : e.1 = a
  · simp [hasKey, List.find?_cons_of_pos, h]
  · simp only [hasKey, List.find?]
    have : (e.1 == a) = false := by simp [h]
    simp [this, h]

/-- Removing the last member of a bucket deletes the bucket's key. -/
lemma hasKey_removePerson_last {d : PeopleByAge} {p : Person}
    (hwf : WFDict d) (hlast : lookupAge d p.age = [p]) :
    hasKey (removePerson d p) p.age = false := by
  induction d with
  | nil => rfl
  | cons e rest ih =>
    rw [lookupAge_cons] at hlast
    rw [removePerson_cons]
    by_cases he : e.1 = p.age
    · rw [if_pos he] at hlast
      rw [if_pos he]
      have hrest := no_key_in_rest hwf.2.1 he
      have hemp : (e.2.erase p).isEmpty := by
        rw [hlast]
        simp [List.erase_cons]
      rw [if_pos hemp, removePerson_of_not_key hrest]
      by_cases hht : hasKey rest p.age = true
      · exfalso
        unfold hasKey at hht
        rw [Option.isSome_iff_exists] at hht
        obtain ⟨x, hx⟩ := hht
        refine hrest x (List.mem_of_find?_eq_some hx) ?_
        have := List.find?_some hx
        rwa [beq_iff_eq] at this
      · exact Bool.eq_false_iff.mpr hht
    · rw [if_neg he] at hlast
      rw [if_neg he, hasKey_cons, if_neg he]
      exact ih (WFDict_cons hwf) hlast

lemma lookupAge_eq_nil_of_not_hasKey {d : PeopleByAge} {a : Nat}
    (h : hasKey d a = false) : lookupAge d a = [] := by
  unfold hasKey at h
  unfold lookupAge
  cases hf : List.find? (fun e => e.1 == a) d with
  | none => rfl
  | some e =>
    rw [hf] at h
    simp at h

lemma hasKey_iff_mem_keys (d : PeopleByAge) (a : Nat) :
    hasKey d a = true ↔ a ∈ d.map Prod.fst := by
  unfold hasKey
  rw [List.find?_isSome]
  constructor
  · rintro ⟨e, he, hk⟩
    rw [beq_iff_eq] at hk
    rw [← hk]
    exact List.mem_map_of_mem Prod.fst he
  · intro hm
    obtain ⟨e, he, hk⟩ := List.mem_map.mp hm
    exact ⟨e, he, by rw [beq_iff_eq]; exact hk⟩

/-- Lookup through the bucket-update branch of `addToDict`. -/
lemma lookupAge_map_append (d : PeopleByAge) (p : Person) (a : Nat) :
    lookupAge (d.map (fun e => if e.1 = p.age then (e.1, e.2 ++ [p]) else e)) a =
      if a = p.age ∧ hasKey d a then lookupAge d a ++ [p] else lookupAge d a := by
  induction d with
  | nil => simp [hasKey]
  | cons e rest ih =>
    rw [List.map_cons]
    by_cases hep : e.1 = p.age
    · rw [if_pos hep]
      simp only [lookupAge_cons, hasKey_cons]
      by_cases hea : e.1 = a
      · have ha : a = p.age := by omega
        simp [hea, ha]
      · have ha : ¬a = p.age := fun h => hea (by omega)
        simp [hea, ha, ih]
    · rw [if_neg hep]
      simp only [lookupAge_cons, hasKey_cons]
      by_cases hea : e.1 = a
      · have ha : ¬a = p.age := fun h => hep (by omega)
        simp [hea, ha]
      · simp [hea, ih]

/-- Lookup through the fresh-bucket branch of `addToDict`. -/
lemma lookupAge_append_single (d : PeopleByAge) (p : Person) (a : Nat) :
    lookupAge (d ++ [(p.age, [p])]) a =
      if hasKey d a then lookupAge d a
      else if a = p.age then [p] else [] := by
  induction d with
  | nil =>
    have hk : hasKey ([] : PeopleByAge) a = false := rfl
    rw [List.nil_append, lookupAge_cons, lookupAge_nil, hk]
    simp only [Bool.false_eq_true, if_false]
    by_cases ha : p.age = a
    · rw [if_pos ha, if_pos (by omega)]
    · rw [if_neg ha, if_neg (by omega)]
  | cons e rest ih =>
    rw [List.cons_append, lookupAge_cons, lookupAge_cons, hasKey_cons]
    by_cases hea : e.1 = a
    · simp [hea]
    · simp only [hea, if_false, if_neg hea, ih]

/-- `addToDict` appends the person to their age bucket and touches nothing
else. -/
lemma lookupAge_addToDict (d : PeopleByAge) (p : Person) (a : Nat) :
    lookupAge (addToDict d p) a =
      if a = p.age then lookupAge d a ++ [p] else lookupAge d a := by
  unfold addToDict
  by_cases hk : hasKey d p.age
  · rw [if_pos hk, lookupAge_map_append]
    by_cases ha : a = p.age
    · rw [if_pos ⟨ha, by rw [ha]; exact hk⟩, if_pos ha]
    · rw [if_neg (fun h => ha h.1), if_neg ha]
  · rw [if_neg hk, lookupAge_append_single]
    by_cases hka : hasKey d a
    · have ha : ¬a = p.age := by
        intro h
        rw [h] at hka
        exact hk hka
      rw [if_pos hka, if_neg ha]
    · rw [if_neg hka,
        lookupAge_eq_nil_of_not_hasKey (Bool.eq_false_iff.mpr hka)]
      by_cases ha : a = p.age
      · rw [if_pos ha, if_pos ha, List.nil_append]
      · rw [if_neg ha, if_neg ha]

/-- With unique keys, a dictionary entry is what its key looks up to. -/
lemma lookupAge_of_mem_nodup {d : PeopleByAge} {e : Nat × List Person}
    (hnd : (d.map Prod.fst).Nodup) (he : e ∈ d) : lookupAge d e.1 = e.2 := by
  induction d with
  | nil => exact absurd he (List.not_mem_nil e)
  | cons x rest ih =>
    rcases List.mem_cons.mp he with h | h
    · rw [h, lookupAge_cons, if_pos rfl]
    · rw [lookupAge_cons]
      have hx : ¬x.1 = e.1 := by
        intro hk
        rw [List.map_cons, List.nodup_cons] at hnd
        exact hnd.1 (hk ▸ List.mem_map_of_mem Prod.fst h)
      rw [if_neg hx]
      exact ih (by rw [List.map_cons, List.nodup_cons] at hnd; exact hnd.2) h

/-- `addToDict` preserves well-formedness for a person not yet pooled. -/
lemma WFDict_addToDict {d : PeopleByAge} {p : Person} (hwf : WFDict d)
    (hp : ∀ a, p ∉ lookupAge d a) : WFDict (addToDict d p) := by
  obtain ⟨h1, h2, h3⟩ := hwf
  unfold addToDict
  by_cases hk : hasKey d p.age
  · rw [if_pos hk]
    refine ⟨?_, ?_, ?_⟩
    · intro e' he' q hq
      obtain ⟨e, he, hfe⟩ := List.mem_map.mp he'
      by_cases hep : e.1 = p.age
      · rw [if_pos hep] at hfe
        rw [← hfe] at hq ⊢
        rcases List.mem_append.mp hq with hmem | hmem
        · exact h1 e he q hmem
        · rw [List.mem_singleton] at hmem
          rw [hmem]
          omega
      · rw [if_neg hep] at hfe
        rw [← hfe] at hq ⊢
        exact h1 e he q hq
    · have hkeys : (d.map (fun e => if e.1 = p.age then (e.1, e.2 ++ [p]) else e)).map
          Prod.fst = d.map Prod.fst := by
        rw [List.map_map]
        refine List.map_congr_left ?_
        intro e _
        by_cases hep : e.1 = p.age
        · simp [Function.comp, hep]
        · simp [Function.comp, hep]
      rw [hkeys]
      exact h2
    · intro e' he'
      obtain ⟨e, he, hfe⟩ := List.mem_map.mp he'
      by_cases hep : e.1 = p.age
      · rw [if_pos hep] at hfe
        rw [← hfe]
        refine List.Nodup.append (h3 e he) (List.nodup_singleton p) ?_
        rw [List.disjoint_singleton]
        intro hmem
        refine hp e.1 ?_
        rw [lookupAge_of_mem_nodup h2 he]
        exact hmem
      · rw [if_neg hep] at hfe
        rw [← hfe]
        exact h3 e he
  · rw [if_neg hk]
    refine ⟨?_, ?_, ?_⟩
    · intro e' he' q hq
      rcases List.mem_append.mp he' with hmem | hmem
      · exact h1 e' hmem q hq
      · rw [List.mem_singleton] at hmem
        rw [hmem] at hq ⊢
        rw [List.mem_singleton] at hq
        rw [hq]
    · rw [List.map_append]
      rw [List.nodup_append]
      refine ⟨h2, List.nodup_singleton p.age, ?_⟩
      intro a hma hmb
      simp only [List.map_cons, List.map_nil, List.mem_singleton] at hmb
      rw [hmb] at hma
      exact hk ((hasKey_iff_mem_keys d p.age).mpr hma)
    · intro e' he'
      rcases List.mem_append.mp he' with hmem | hmem
      · exact h3 e' hmem
      · rw [List.mem_singleton] at hmem
        rw [hmem]
        exact List.nodup_singleton p

/-- The dictionaries built by `_create_people_dicts` from a list of distinct
people are well-formed. -/
lemma WFDict_createPeopleDicts_aux :
    ∀ (people : List Person) (md wd : PeopleByAge),
      WFDict md → WFDict wd →
      (∀ q ∈ people, ∀ a, q ∉ lookupAge md a) →
      (∀ q ∈ people, ∀ a, q ∉ lookupAge wd a) →
      people.Nodup →
      WFDict (people.foldl
        (fun md p => if p.sex = 'm' then (addToDict md.1 p, md.2)
          else (md.1, addToDict md.2 p)) (md, wd)).1 ∧
      WFDict (people.foldl
        (fun md p => if p.sex = 'm' then (addToDict md.1 p, md.2)
          else (md.1, addToDict md.2 p)) (md, wd)).2 := by
  intro people
  induction people with
  | nil => exact fun md wd hm hw _ _ _ => ⟨hm, hw⟩
  | cons p rest ih =>
    intro md wd hm hw hqm hqw hnd
    rw [List.nodup_cons] at hnd
    have hpm := hqm p (List.mem_cons_self p rest)
    have hpw := hqw p (List.mem_cons_self p rest)
    have hstay : ∀ (d : PeopleByAge) (q : Person), q ≠ p → ∀ a : Nat,
        q ∉ lookupAge d a → q ∉ lookupAge (addToDict d p) a := by
      intro d q hq a hqa hmem
      rw [lookupAge_addToDict] at hmem
      by_cases ha : a = p.age
      · rw [if_pos ha] at hmem
        rcases List.mem_append.mp hmem with h | h
        · exact hqa h
        · rw [List.mem_singleton] at h
          exact hq h
      · rw [if_neg ha] at hmem
        exact hqa hmem
    show WFDict (List.foldl
        (fun md p => if p.sex = 'm' then (addToDict md.1 p, md.2)
          else (md.1, addToDict md.2 p))
        (if p.sex = 'm' then (addToDict md p, wd) else (md, addToDict wd p))
        rest).1 ∧
      WFDict (List.foldl
        (fun md p => if p.sex = 'm' then (addToDict md.1 p, md.2)
          else (md.1, addToDict md.2 p))
        (if p.sex = 'm' then (addToDict md p, wd) else (md, addToDict wd p))
        rest).2
    by_cases hsex : p.sex = 'm'
    · rw [if_pos hsex]
      refine ih (addToDict md p) wd (WFDict_addToDict hm hpm) hw ?_ ?_ hnd.2
      · intro q hq a
        exact hstay md q (fun h => hnd.1 (h ▸ hq)) a (hqm q (List.mem_cons_of_mem p hq) a)
      · intro q hq a
        exact hqw q (List.mem_cons_of_mem p hq) a
    · rw [if_neg hsex]
      refine ih md (addToDict wd p) hm (WFDict_addToDict hw hpw) ?_ ?_ hnd.2
      · intro q hq a
        exact hqm q (List.mem_cons_of_mem p hq) a
      · intro q hq a
        exact hstay wd q (fun h => hnd.1 (h ▸ hq)) a (hqw q (List.mem_cons_of_mem p hq) a)

/-- The per-area pools the care-home distributor builds are well-formed, so
the well-formedness hypotheses of the draw and fill-loop theorems hold on
every program-generated input. -/
lemma WFDict_createPeopleDicts (people : List Person) (hnd : people.Nodup) :
    WFDict (createPeopleDicts people).1 ∧ WFDict (createPeopleDicts people).2 := by
  have hempty : WFDict ([] : PeopleByAge) := by
    refine ⟨?_, ?_, ?_⟩ <;> simp
  unfold createPeopleDicts
  exact WFDict_createPeopleDicts_aux people [] [] hempty hempty
    (fun q _ a => by simp [lookupAge_nil])
    (fun q _ a => by simp [lookupAge_nil]) hnd

/-- The matching set of a draw is duplicate-free: uniform random indices hit
uniform random people, with no bias toward any sub-age. -/
lemma nodup_availablePeople {d : PeopleByAge} (hwf : WFDict d) (a1 a2 : Nat) :
    (availablePeople d a1 a2).Nodup := by
  unfold availablePeople
  rw [List.nodup_flatMap]
  refine ⟨fun a _ => nodup_lookupAge hwf a, ?_⟩
  have hnd : (List.range' a1 (a2 + 1 - a1)).Nodup := List.nodup_range' _ _
  refine hnd.pairwise_of_forall_ne ?_
  intro a ha b hb hab
  rw [Function.onFun, List.disjoint_left]
  intro p hpa hpb
  have hA := age_eq_of_mem_lookupAge hwf.1 hpa
  have hB := age_eq_of_mem_lookupAge hwf.1 hpb
  exact hab (by omega)

/-- Evaluation of a successful draw: with in-range oracle value `k`, the
`k`-th member of `available_people` is chosen and removed. -/
lemma findPersonInAgeRange_eq_some (d : PeopleByAge) (a1 a2 k : Nat)
    (hk : k < (availablePeople d a1 a2).length) :
    findPersonInAgeRange d a1 a2 k =
      some ((availablePeople d a1 a2).get ⟨k, hk⟩,
        removePerson d ((availablePeople d a1 a2).get ⟨k, hk⟩)) := by
  have hne : (availablePeople d a1 a2).isEmpty = false := by
    cases h : availablePeople d a1 a2
    · rw [h] at hk
      simp at hk
    · rfl
  unfold findPersonInAgeRange
  simp only [hne, Bool.false_eq_true, if_neg, not_false_iff]
  rw [Nat.mod_eq_of_lt hk]
  rw [List.getD_eq_getElem?_getD, List.getElem?_eq_getElem hk]
  rfl

/-- Python `==` on the modelled attribute values coincides with equality. -/
lemma pyEq_eq_true_iff (a b : PyVal) : pyEq a b = true ↔ a = b := by
  cases a <;> cases b <;> simp [pyEq]

/-- A successful draw yields a well-formed pool that is smaller by one. -/
lemma findPerson_some_spec {d : PeopleByAge} {a1 a2 k : Nat} {p : Person}
    {d' : PeopleByAge} (hwf : WFDict d)
    (h : findPersonInAgeRange d a1 a2 k = some (p, d')) :
    WFDict d' ∧ poolSize d' + 1 = poolSize d := by
  unfold findPersonInAgeRange at h
  by_cases hemp : (availablePeople d a1 a2).isEmpty
  · simp [hemp] at h
  · simp only [hemp, Bool.false_eq_true, if_neg, not_false_iff,
      Option.some.injEq, Prod.mk.injEq] at h
    have hlen : 0 < (availablePeople d a1 a2).length := by
      cases hA : availablePeople d a1 a2
      · rw [hA] at hemp
        simp at hemp
      · simp
    have hkl : k % (availablePeople d a1 a2).length <
        (availablePeople d a1 a2).length := Nat.mod_lt _ hlen
    have hmem : (availablePeople d a1 a2).getD
        (k % (availablePeople d a1 a2).length) default ∈
          availablePeople d a1 a2 := by
      rw [List.getD_eq_getElem?_getD, List.getElem?_eq_getElem hkl]
      exact List.getElem_mem hkl
    obtain ⟨h1, h2⟩ := h
    rw [h1] at hmem h2
    obtain ⟨-, -, hbkt⟩ := (mem_availablePeople hwf.1).mp hmem
    rw [← h2]
    exact ⟨WFDict_removePerson hwf, poolSize_removePerson hwf hbkt⟩

/-- Band loop: the pool stays well-formed, never grows, and strictly shrinks
whenever the loop reports progress. -/
lemma fillBandsForArea_pool (rs : Nat → Nat) (bands : List Band)
    (ch : CareHome) (pool : PeopleByAge) (t : Nat) (hwf : WFDict pool) :
    WFDict (fillBandsForArea rs bands ch pool t).2.2.1 ∧
    poolSize (fillBandsForArea rs bands ch pool t).2.2.1 ≤ poolSize pool ∧
    ((fillBandsForArea rs bands ch pool t).2.2.2.2 = true →
      poolSize (fillBandsForArea rs bands ch pool t).2.2.1 < poolSize pool) := by
  induction bands generalizing ch pool t with
  | nil => exact ⟨hwf, le_refl _, fun h => by simp [fillBandsForArea] at h⟩
  | cons b bs ih =>
    by_cases hb : b.target ≤ 0
    · have heq : fillBandsForArea rs (b :: bs) ch pool t =
          (b :: (fillBandsForArea rs bs ch pool t).1,
           (fillBandsForArea rs bs ch pool t).2.1,
           (fillBandsForArea rs bs ch pool t).2.2.1,
           (fillBandsForArea rs bs ch pool t).2.2.2.1,
           (fillBandsForArea rs bs ch pool t).2.2.2.2) := by
        simp only [fillBandsForArea]
        rw [if_pos hb]
      rw [heq]
      exact ih ch pool t hwf
    · cases hfp : findPersonInAgeRange pool b.a1 b.a2 (rs t) with
      | none =>
        have heq : fillBandsForArea rs (b :: bs) ch pool t =
            (b :: (fillBandsForArea rs bs ch pool t).1,
             (fillBandsForArea rs bs ch pool t).2.1,
             (fillBandsForArea rs bs ch pool t).2.2.1,
             (fillBandsForArea rs bs ch pool t).2.2.2.1,
             (fillBandsForArea rs bs ch pool t).2.2.2.2) := by
          simp only [fillBandsForArea]
          rw [if_neg hb, hfp]
        rw [heq]
        exact ih ch pool t hwf
      | some pr =>
        obtain ⟨p, pool1⟩ := pr
        obtain ⟨hwf1, hsz1⟩ := findPerson_some_spec hwf hfp
        have heq : fillBandsForArea rs (b :: bs) ch pool t =
            ({ b with target := b.target - 1 } ::
              (fillBandsForArea rs bs (ch.add p) pool1 (t + 1)).1,
             (fillBandsForArea rs bs (ch.add p) pool1 (t + 1)).2.1,
             (fillBandsForArea rs bs (ch.add p) pool1 (t + 1)).2.2.1,
             (fillBandsForArea rs bs (ch.add p) pool1 (t + 1)).2.2.2.1,
             true) := by
          simp only [fillBandsForArea]
          rw [if_neg hb, hfp]
        rw [heq]
        obtain ⟨ihwf, ihle, -⟩ := ih (ch.add p) pool1 (t + 1) hwf1
        refine ⟨ihwf, ?_, fun _ => ?_⟩
        · show poolSize (fillBandsForArea rs bs (ch.add p) pool1 (t + 1)).2.2.1 ≤
            poolSize pool
          omega
        · show poolSize (fillBandsForArea rs bs (ch.add p) pool1 (t + 1)).2.2.1 <
            poolSize pool
          omega

/-- Area visit: same shrinking facts at the level of one area's pool. -/
lemma passOneArea_pool (rs : Nat → Nat) (a : AreaCH) (bands : List Band)
    (t : Nat) (hwf : WFDict a.pool) :
    WFDict (passOneArea rs a bands t).1.pool ∧
    poolSize (passOneArea rs a bands t).1.pool ≤ poolSize a.pool ∧
    ((passOneArea rs a bands t).2.2.2 = true →
      poolSize (passOneArea rs a bands t).1.pool < poolSize a.pool) := by
  unfold passOneArea
  by_cases hc : a.careHome.residents.length < a.careHome.nResidents
  · rw [if_pos hc]
    exact fillBandsForArea_pool rs bands a.careHome a.pool t hwf
  · rw [if_neg hc]
    exact ⟨hwf, le_refl _, fun h => absurd h (by simp)⟩

lemma totalPool_cons (a : AreaCH) (as : List AreaCH) :
    totalPool (a :: as) = poolSize a.pool + totalPool as := by
  simp [totalPool]

/-- One full pass: all pools stay well-formed, the total population never
grows, and strictly shrinks when the pass reports progress. -/
lemma passAreas_pool (rs : Nat → Nat) (as : List AreaCH) (bands : List Band)
    (t : Nat) (hwf : ∀ a ∈ as, WFDict a.pool) :
    (∀ a ∈ (passAreas rs as bands t).1, WFDict a.pool) ∧
    totalPool (passAreas rs as bands t).1 ≤ totalPool as ∧
    ((passAreas rs as bands t).2.2.2 = true →
      totalPool (passAreas rs as bands t).1 < totalPool as) := by
  induction as generalizing bands t with
  | nil =>
    exact ⟨by simp [passAreas], le_refl _, fun h => by simp [passAreas] at h⟩
  | cons a as ih =>
    have heq : passAreas rs (a :: as) bands t =
        ((passOneArea rs a bands t).1 ::
          (passAreas rs as (passOneArea rs a bands t).2.1
            (passOneArea rs a bands t).2.2.1).1,
         (passAreas rs as (passOneArea rs a bands t).2.1
            (passOneArea rs a bands t).2.2.1).2.1,
         (passAreas rs as (passOneArea rs a bands t).2.1
            (passOneArea rs a bands t).2.2.1).2.2.1,
         (passOneArea rs a bands t).2.2.2 ||
           (passAreas rs as (passOneArea rs a bands t).2.1
            (passOneArea rs a bands t).2.2.1).2.2.2) := rfl
    rw [heq]
    obtain ⟨hwa, hle1, hlt1⟩ :=
      passOneArea_pool rs a bands t (hwf a (List.mem_cons_self a as))
    obtain ⟨hwas, hle2, hlt2⟩ :=
      ih (passOneArea rs a bands t).2.1 (passOneArea rs a bands t).2.2.1
        (fun x hx => hwf x (List.mem_cons_of_mem a hx))
    refine ⟨?_, ?_, ?_⟩
    · intro x hx
      rcases List.mem_cons.mp hx with hx | hx
      · rw [hx]
        exact hwa
      · exact hwas x hx
    · rw [totalPool_cons, totalPool_cons]
      omega
    · intro hp
      rw [Bool.or_eq_true] at hp
      rw [totalPool_cons, totalPool_cons]
      rcases hp with hp | hp
      · have := hlt1 hp
        omega
      · have := hlt2 hp
        omega

lemma passState_shift (rs : Nat → Nat) (s : List AreaCH × List Band × Nat)
    (n : Nat) :
    passState rs s (n + 1) = passState rs (stepOnce rs s) n := by
  induction n with
  | zero => rfl
  | succ m ih =>
    show stepOnce rs (passState rs s (m + 1)) =
      stepOnce rs (passState rs (stepOnce rs s) m)
    rw [ih]

lemma passProg_shift (rs : Nat → Nat) (s : List AreaCH × List Band × Nat)
    (n : Nat) :
    passProg rs s (n + 1) = passProg rs (stepOnce rs s) n := by
  unfold passProg
  rw [passState_shift]

/-- Core induction for C8: with fuel exceeding the pooled population, the
loop returns, and it returns exactly the state after the first pass that
made no assignment (every earlier pass made one). -/
lemma fillLoopFuel_spec (rs : Nat → Nat) :
    ∀ (fuel : Nat) (as : List AreaCH) (bands : List Band) (t : Nat),
      (∀ a ∈ as, WFDict a.pool) → totalPool as < fuel →
      ∃ n, n + 1 ≤ fuel ∧
        (∀ i < n, passProg rs (as, bands, t) i = true) ∧
        passProg rs (as, bands, t) n = false ∧
        fillLoopFuel rs fuel as bands t =
          some (passState rs (as, bands, t) (n + 1)) := by
  intro fuel
  induction fuel with
  | zero => exact fun as bands t _ hf => absurd hf (by omega)
  | succ f ih =>
    intro as bands t hwf hf
    have heq : fillLoopFuel rs (f + 1) as bands t =
        if (passAreas rs as bands t).2.2.2 then
          fillLoopFuel rs f (passAreas rs as bands t).1
            (passAreas rs as bands t).2.1 (passAreas rs as bands t).2.2.1
        else
          some ((passAreas rs as bands t).1, (passAreas rs as bands t).2.1,
            (passAreas rs as bands t).2.2.1) := rfl
    by_cases hp : (passAreas rs as bands t).2.2.2 = true
    · obtain ⟨hwf', hle, hlt⟩ := passAreas_pool rs as bands t hwf
      have hdec := hlt hp
      obtain ⟨n, hn1, hall, hstop, hres⟩ :=
        ih (passAreas rs as bands t).1 (passAreas rs as bands t).2.1
          (passAreas rs as bands t).2.2.1 hwf' (by omega)
      refine ⟨n + 1, by omega, ?_, ?_, ?_⟩
      · intro i hi
        cases i with
        | zero => exact hp
        | succ j =>
          rw [passProg_shift]
          exact hall j (by omega)
      · rw [passProg_shift]
        exact hstop
      · rw [heq, if_pos hp, hres, passState_shift rs (as, bands, t) (n + 1)]
        rfl
    · have hp' : (passAreas rs as bands t).2.2.2 = false :=
        Bool.eq_false_iff.mpr hp
      refine ⟨0, by omega, fun i hi => absurd hi (by omega), hp', ?_⟩
      rw [heq, if_neg hp]
      rfl

lemma radiansR_degreesR (x : ℝ) : radiansR (degreesR x) = x := by
  unfold radiansR degreesR
  field_simp

lemma radiansR_sub_deg (u v : ℝ) :
    radiansR (degreesR u - v) = u - radiansR v := by
  unfold radiansR degreesR
  field_simp
  ring

lemma sin_half_mul_self (u : ℝ) :
    Real.sin (u / 2) * Real.sin (u / 2) = (1 - Real.cos u) / 2 := by
  have h1 := Real.cos_two_mul (u / 2)
  rw [show 2 * (u / 2) = u from by ring] at h1
  have h2 := Real.sin_sq_add_cos_sq (u / 2)
  have h3 : Real.sin (u / 2) * Real.sin (u / 2) = Real.sin (u / 2) ^ 2 := by
    ring
  linarith

/-- The haversine kernel of the destination point at radians distance `δ` and
bearing `θ` from latitude `φ1` equals `(1 - cos δ)/2`. -/
lemma roundtrip_core (φ1 δ θ : ℝ) (hc1 : 0 < Real.cos φ1)
    (hδ0 : 0 ≤ δ) (hδπ : δ ≤ Real.pi)
    (hsafe : |Real.sin φ1| * |Real.cos δ| + Real.cos φ1 * Real.sin δ < 1) :
    Real.sin ((Real.arcsin (Real.sin φ1 * Real.cos δ +
        Real.cos φ1 * Real.sin δ * Real.cos θ) - φ1) / 2) *
      Real.sin ((Real.arcsin (Real.sin φ1 * Real.cos δ +
        Real.cos φ1 * Real.sin δ * Real.cos θ) - φ1) / 2) +
    Real.cos φ1 * Real.cos (Real.arcsin (Real.sin φ1 * Real.cos δ +
        Real.cos φ1 * Real.sin δ * Real.cos θ)) *
      Real.sin (atan2 (Real.sin θ * Real.sin δ * Real.cos φ1)
        (Real.cos δ - Real.sin φ1 * Real.sin (Real.arcsin (Real.sin φ1 * Real.cos δ +
          Real.cos φ1 * Real.sin δ * Real.cos θ))) / 2) *
      Real.sin (atan2 (Real.sin θ * Real.sin δ * Real.cos φ1)
        (Real.cos δ - Real.sin φ1 * Real.sin (Real.arcsin (Real.sin φ1 * Real.cos δ +
          Real.cos φ1 * Real.sin δ * Real.cos θ))) / 2) =
      (1 - Real.cos δ) / 2 := by
  have hsd0 : 0 ≤ Real.sin δ := Real.sin_nonneg_of_nonneg_of_le_pi hδ0 hδπ
  have hAabs : |Real.sin φ1 * Real.cos δ +
      Real.cos φ1 * Real.sin δ * Real.cos θ| < 1 := by
    calc |Real.sin φ1 * Real.cos δ + Real.cos φ1 * Real.sin δ * Real.cos θ|
        ≤ |Real.sin φ1 * Real.cos δ| + |Real.cos φ1 * Real.sin δ * Real.cos θ| :=
          abs_add _ _
    _ = |Real.sin φ1| * |Real.cos δ| +
          Real.cos φ1 * Real.sin δ * |Real.cos θ| := by
        rw [abs_mul, abs_mul, abs_mul, abs_of_pos hc1, abs_of_nonneg hsd0]
    _ ≤ |Real.sin φ1| * |Real.cos δ| + Real.cos φ1 * Real.sin δ * 1 := by
        have hb : |Real.cos θ| ≤ 1 := Real.abs_cos_le_one θ
        have hcs : 0 ≤ Real.cos φ1 * Real.sin δ :=
          mul_nonneg (le_of_lt hc1) hsd0
        nlinarith
    _ < 1 := by
        rw [mul_one]
        exact hsafe
  have hA1 : -(1 : ℝ) ≤ Real.sin φ1 * Real.cos δ +
      Real.cos φ1 * Real.sin δ * Real.cos θ := by
    have := (abs_lt.mp hAabs).1
    linarith
  have hA2 : Real.sin φ1 * Real.cos δ +
      Real.cos φ1 * Real.sin δ * Real.cos θ ≤ 1 :=
    le_of_lt (abs_lt.mp hAabs).2
  have hsin2 : Real.sin (Real.arcsin (Real.sin φ1 * Real.cos δ +
      Real.cos φ1 * Real.sin δ * Real.cos θ)) =
      Real.sin φ1 * Real.cos δ + Real.cos φ1 * Real.sin δ * Real.cos θ :=
    Real.sin_arcsin hA1 hA2
  have hA2lt : (Real.sin φ1 * Real.cos δ +
      Real.cos φ1 * Real.sin δ * Real.cos θ) ^ 2 < 1 := by
    rw [← sq_abs]
    nlinarith [abs_nonneg (Real.sin φ1 * Real.cos δ +
      Real.cos φ1 * Real.sin δ * Real.cos θ)]
  have hc2v : Real.cos (Real.arcsin (Real.sin φ1 * Real.cos δ +
      Real.cos φ1 * Real.sin δ * Real.cos θ)) =
      Real.sqrt (1 - (Real.sin φ1 * Real.cos δ +
        Real.cos φ1 * Real.sin δ * Real.cos θ) ^ 2) := Real.cos_arcsin _
  have hc2pos : 0 < Real.cos (Real.arcsin (Real.sin φ1 * Real.cos δ +
      Real.cos φ1 * Real.sin δ * Real.cos θ)) := by
    rw [hc2v]
    exact Real.sqrt_pos.mpr (by linarith)
  have hc2sq : Real.cos (Real.arcsin (Real.sin φ1 * Real.cos δ +
      Real.cos φ1 * Real.sin δ * Real.cos θ)) ^ 2 =
      1 - (Real.sin φ1 * Real.cos δ +
        Real.cos φ1 * Real.sin δ * Real.cos θ) ^ 2 := by
    rw [hc2v, Real.sq_sqrt (by linarith)]
  rw [hsin2]
  have e1 : Real.sin φ1 ^ 2 + Real.cos φ1 ^ 2 = 1 := Real.sin_sq_add_cos_sq _
  have e2 : Real.sin δ ^ 2 + Real.cos δ ^ 2 = 1 := Real.sin_sq_add_cos_sq _
  have e3 : Real.sin θ ^ 2 + Real.cos θ ^ 2 = 1 := Real.sin_sq_add_cos_sq θ
  have key : (Real.cos δ - Real.sin φ1 * (Real.sin φ1 * Real.cos δ +
        Real.cos φ1 * Real.sin δ * Real.cos θ)) ^ 2 +
      (Real.sin θ * Real.sin δ * Real.cos φ1) ^ 2 =
      (Real.cos φ1 * Real.cos (Real.arcsin (Real.sin φ1 * Real.cos δ +
        Real.cos φ1 * Real.sin δ * Real.cos θ))) ^ 2 := by
    rw [mul_pow (Real.cos φ1) (Real.cos (Real.arcsin (Real.sin φ1 * Real.cos δ +
      Real.cos φ1 * Real.sin δ * Real.cos θ))) 2, hc2sq]
    linear_combination ((Real.sin φ1 * Real.cos δ +
        Real.cos φ1 * Real.sin δ * Real.cos θ) ^ 2 - Real.cos δ ^ 2) * e1 +
      Real.cos φ1 ^ 2 * e2 + Real.cos φ1 ^ 2 * Real.sin δ ^ 2 * e3
  have habs : Complex.abs ⟨Real.cos δ - Real.sin φ1 * (Real.sin φ1 * Real.cos δ +
        Real.cos φ1 * Real.sin δ * Real.cos θ),
        Real.sin θ * Real.sin δ * Real.cos φ1⟩ =
      Real.cos φ1 * Real.cos (Real.arcsin (Real.sin φ1 * Real.cos δ +
        Real.cos φ1 * Real.sin δ * Real.cos θ)) := by
    rw [Complex.abs_apply, Complex.normSq_mk]
    rw [show (Real.cos δ - Real.sin φ1 * (Real.sin φ1 * Real.cos δ +
          Real.cos φ1 * Real.sin δ * Real.cos θ)) *
        (Real.cos δ - Real.sin φ1 * (Real.sin φ1 * Real.cos δ +
          Real.cos φ1 * Real.sin δ * Real.cos θ)) +
        Real.sin θ * Real.sin δ * Real.cos φ1 *
          (Real.sin θ * Real.sin δ * Real.cos φ1) =
        (Real.cos φ1 * Real.cos (Real.arcsin (Real.sin φ1 * Real.cos δ +
          Real.cos φ1 * Real.sin δ * Real.cos θ))) ^ 2 from by
        rw [← key]; ring]
    exact Real.sqrt_sq (by positivity)
  have hzne : (⟨Real.cos δ - Real.sin φ1 * (Real.sin φ1 * Real.cos δ +
        Real.cos φ1 * Real.sin δ * Real.cos θ),
        Real.sin θ * Real.sin δ * Real.cos φ1⟩ : ℂ) ≠ 0 := by
    intro h0
    rw [h0] at habs
    simp only [map_zero] at habs
    nlinarith [mul_pos hc1 hc2pos]
  have hcosarg : Real.cos (atan2 (Real.sin θ * Real.sin δ * Real.cos φ1)
      (Real.cos δ - Real.sin φ1 * (Real.sin φ1 * Real.cos δ +
        Real.cos φ1 * Real.sin δ * Real.cos θ))) =
      (Real.cos δ - Real.sin φ1 * (Real.sin φ1 * Real.cos δ +
        Real.cos φ1 * Real.sin δ * Real.cos θ)) /
      (Real.cos φ1 * Real.cos (Real.arcsin (Real.sin φ1 * Real.cos δ +
        Real.cos φ1 * Real.sin δ * Real.cos θ))) := by
    unfold atan2
    rw [Complex.cos_arg hzne, habs]
  rw [sin_half_mul_self, mul_assoc (Real.cos φ1 *
    Real.cos (Real.arcsin (Real.sin φ1 * Real.cos δ +
      Real.cos φ1 * Real.sin δ * Real.cos θ))), sin_half_mul_self,
    Real.cos_sub, hsin2, hcosarg]
  have hcc : Real.cos φ1 * Real.cos (Real.arcsin (Real.sin φ1 * Real.cos δ +
      Real.cos φ1 * Real.sin δ * Real.cos θ)) ≠ 0 :=
    ne_of_gt (mul_pos hc1 hc2pos)
  field_simp
  ring

/-- The haversine distance from the origin to the destination-point
projection equals the projected distance (exact, in real arithmetic). -/
lemma haversine_addDistanceToLatLon (lat lon dist θ : ℝ)
    (h1 : 0 < Real.cos (radiansR lat)) (h2 : 0 ≤ dist)
    (h3 : dist ≤ earthRadius * Real.pi)
    (hsafe : |Real.sin (radiansR lat)| * |Real.cos (dist / earthRadius)| +
      Real.cos (radiansR lat) * Real.sin (dist / earthRadius) < 1) :
    haversineDistance (lat, lon) (addDistanceToLatLon lat lon dist θ) =
      dist := by
  have hEr : (0 : ℝ) < earthRadius := by norm_num [earthRadius]
  have hd0 : 0 ≤ dist / earthRadius := div_nonneg h2 (le_of_lt hEr)
  have hdpi : dist / earthRadius ≤ Real.pi := by
    rw [div_le_iff₀ hEr]
    linarith [h3]
  have hdest : addDistanceToLatLon lat lon dist θ =
      (degreesR (Real.arcsin (Real.sin (radiansR lat) * Real.cos (dist / earthRadius) +
          Real.cos (radiansR lat) * Real.sin (dist / earthRadius) * Real.cos θ)),
       degreesR (radiansR lon + atan2
          (Real.sin θ * Real.sin (dist / earthRadius) * Real.cos (radiansR lat))
          (Real.cos (dist / earthRadius) - Real.sin (radiansR lat) *
            Real.sin (Real.arcsin (Real.sin (radiansR lat) * Real.cos (dist / earthRadius) +
              Real.cos (radiansR lat) * Real.sin (dist / earthRadius) * Real.cos θ))))) := by
    simp only [addDistanceToLatLon]
  rw [hdest]
  simp only [haversineDistance]
  rw [radiansR_sub_deg, radiansR_sub_deg, radiansR_degreesR]
  rw [show radiansR lon + atan2
      (Real.sin θ * Real.sin (dist / earthRadius) * Real.cos (radiansR lat))
      (Real.cos (dist / earthRadius) - Real.sin (radiansR lat) *
        Real.sin (Real.arcsin (Real.sin (radiansR lat) * Real.cos (dist / earthRadius) +
          Real.cos (radiansR lat) * Real.sin (dist / earthRadius) * Real.cos θ))) - radiansR lon =
      atan2 (Real.sin θ * Real.sin (dist / earthRadius) * Real.cos (radiansR lat))
      (Real.cos (dist / earthRadius) - Real.sin (radiansR lat) *
        Real.sin (Real.arcsin (Real.sin (radiansR lat) * Real.cos (dist / earthRadius) +
          Real.cos (radiansR lat) * Real.sin (dist / earthRadius) * Real.cos θ)))
    from by ring]
  rw [roundtrip_core (radiansR lat) (dist / earthRadius) θ h1 hd0 hdpi hsafe]
  rw [show (1 : ℝ) - (1 - Real.cos (dist / earthRadius)) / 2 =
    (1 + Real.cos (dist / earthRadius)) / 2 from by ring]
  rw [← Real.sin_half_eq_sqrt hd0 (by linarith [Real.pi_pos]),
    ← Real.cos_half (by linarith [Real.pi_pos]) hdpi]
  have harg : atan2 (Real.sin (dist / earthRadius / 2))
      (Real.cos (dist / earthRadius / 2)) = dist / earthRadius / 2 := by
    unfold atan2
    rw [Complex.mk_eq_add_mul_I, Complex.ofReal_cos, Complex.ofReal_sin]
    exact Complex.arg_cos_add_sin_mul_I ⟨by linarith [Real.pi_pos], by linarith⟩
  rw [harg]
  rw [show (earthRadius : ℝ) = 6371 from rfl]
  field_simp
  ring

lemma stationPositionsAux_length (hub : ℝ × ℝ) (dist delta : ℝ) :
    ∀ (m : Nat) (angle : ℝ),
      (stationPositionsAux hub dist delta m angle).length = m := by
  intro m
  induction m with
  | zero => intro angle; rfl
  | succ k ih =>
    intro angle
    show (stationPositionsAux hub dist delta k (angle + delta)).length + 1 = k + 1
    rw [ih]

lemma stationPositionsAux_getD (hub : ℝ × ℝ) (dist delta : ℝ) :
    ∀ (m : Nat) (angle : ℝ) (i : Nat), i < m →
      (stationPositionsAux hub dist delta m angle).getD i (0, 0) =
        addDistanceToLatLon hub.1 hub.2 dist (angle + i * delta) := by
  intro m
  induction m with
  | zero => intro angle i hi; omega
  | succ k ih =>
    intro angle i hi
    cases i with
    | zero =>
      show addDistanceToLatLon hub.1 hub.2 dist angle =
        addDistanceToLatLon hub.1 hub.2 dist (angle + (0 : Nat) * delta)
      norm_num
    | succ j =>
      show (stationPositionsAux hub dist delta k (angle + delta)).getD j (0, 0) =
        addDistanceToLatLon hub.1 hub.2 dist (angle + (j + 1 : Nat) * delta)
      rw [ih (angle + delta) j (by omega)]
      congr 1
      push_cast
      ring

/-- A nearest-neighbour query over a non-empty point set returns an in-range
index. -/
lemma argminIdx_lt_length (l : List ℝ) (h : l ≠ []) : argminIdx l < l.length := by
  induction l with
  | nil => exact absurd rfl h
  | cons x xs ih =>
    cases xs with
    | nil => simp [argminIdx]
    | cons y ys =>
      show (if (y :: ys).getD (argminIdx (y :: ys)) 0 < x then
        argminIdx (y :: ys) + 1 else 0) < (x :: y :: ys).length
      have hlt : argminIdx (y :: ys) < (y :: ys).length := ih (by simp)
      by_cases hc : (y :: ys).getD (argminIdx (y :: ys)) 0 < x
      · rw [if_pos hc]
        simp only [List.length_cons] at hlt ⊢
        omega
      · rw [if_neg hc]
        simp

/-! ## Claim theorems -/

/-- **C7.** A draw from the age-stratified pool (`_find_person_in_age_range`
with inclusive bounds `a1`, `a2`) fails exactly when no pooled person's age
lies in the range; otherwise, for each equiprobable `randint` outcome `k`,
it removes and returns the `k`-th member of the duplicate-free list of all
pooled people with `a1 ≤ age ≤ a2` (so the choice is uniform over the whole
matching set, with no bias toward any sub-age); the drawn person is gone
from every bucket and cannot be redrawn, everyone else is untouched, and the
age bucket's key is deleted when its last member is drawn. -/
theorem findPersonInAgeRange_draw_spec
    (d : PeopleByAge) (a1 a2 k : Nat) (hwf : WFDict d) :
    (findPersonInAgeRange d a1 a2 k = none ↔
      ∀ p : Person, p ∈ lookupAge d p.age → ¬(a1 ≤ p.age ∧ p.age ≤ a2)) ∧
    (availablePeople d a1 a2).Nodup ∧
    (∀ hk : k < (availablePeople d a1 a2).length,
      ∃ chosen : Person,
        chosen = (availablePeople d a1 a2).get ⟨k, hk⟩ ∧
        findPersonInAgeRange d a1 a2 k = some (chosen, removePerson d chosen) ∧
        a1 ≤ chosen.age ∧ chosen.age ≤ a2 ∧
        chosen ∈ lookupAge d chosen.age ∧
        poolSize (removePerson d chosen) + 1 = poolSize d ∧
        (∀ a, chosen ∉ lookupAge (removePerson d chosen) a) ∧
        (∀ q : Person, ∀ a, q ≠ chosen →
          (q ∈ lookupAge (removePerson d chosen) a ↔ q ∈ lookupAge d a)) ∧
        (lookupAge d chosen.age = [chosen] →
          hasKey (removePerson d chosen) chosen.age = false) ∧
        WFDict (removePerson d chosen)) := by
  refine ⟨?_, nodup_availablePeople hwf a1 a2, ?_⟩
  · unfold findPersonInAgeRange
    by_cases hemp : (availablePeople d a1 a2).isEmpty
    · simp only [hemp, if_pos]
      rw [List.isEmpty_iff] at hemp
      constructor
      · intro _ p hp ⟨hh1, hh2⟩
        have : p ∈ availablePeople d a1 a2 :=
          (mem_availablePeople hwf.1).mpr ⟨hh1, hh2, hp⟩
        rw [hemp] at this
        exact absurd this (List.not_mem_nil p)
      · intro _
        trivial
    · simp only [hemp, Bool.false_eq_true, if_neg, not_false_iff]
      constructor
      · intro h
        exact absurd h (by simp)
      · intro hall
        exfalso
        rw [List.isEmpty_iff] at hemp
        obtain ⟨p, hp⟩ := List.exists_mem_of_ne_nil _ hemp
        obtain ⟨hh1, hh2, hp'⟩ := (mem_availablePeople hwf.1).mp hp
        exact hall p hp' ⟨hh1, hh2⟩
  · intro hk
    refine ⟨(availablePeople d a1 a2).get ⟨k, hk⟩, rfl,
      findPersonInAgeRange_eq_some d a1 a2 k hk, ?_⟩
    have hmem : (availablePeople d a1 a2).get ⟨k, hk⟩ ∈ availablePeople d a1 a2 :=
      List.get_mem _ _ _
    obtain ⟨hh1, hh2, hbkt⟩ := (mem_availablePeople hwf.1).mp hmem
    refine ⟨hh1, hh2, hbkt, poolSize_removePerson hwf hbkt,
      fun a => not_mem_lookupAge_removePerson hwf a, ?_,
      fun hlast => hasKey_removePerson_last hwf hlast,
      WFDict_removePerson hwf⟩
    intro q a hq
    rw [lookupAge_removePerson hwf a]
    by_cases ha : a = ((availablePeople d a1 a2).get ⟨k, hk⟩).age
    · rw [if_pos ha]
      exact List.mem_erase_of_ne hq
    · rw [if_neg ha]

/-- Concrete pool for the C7 witness: one woman aged 70, two aged 80. -/
def dEx : PeopleByAge :=
  [(70, [⟨1, 70, 'f'⟩]), (80, [⟨2, 80, 'f'⟩, ⟨3, 80, 'f'⟩])]

/-- Witness for C7: with band 65–85 and `randint` outcome `1`, the draw picks
the second matching person out of three and removes them. -/
theorem findPersonInAgeRange_draw_spec_witness :
    findPersonInAgeRange dEx 65 85 1 =
      some (⟨2, 80, 'f'⟩, [(70, [⟨1, 70, 'f'⟩]), (80, [⟨3, 80, 'f'⟩])]) := by
  obtain ⟨-, -, h3⟩ := findPersonInAgeRange_draw_spec dEx 65 85 1 (by decide)
  obtain ⟨chosen, hc, heq, -⟩ := h3 (by decide)
  rw [heq, hc]
  rfl

/-- **C6 (counterexample).** With the source defaults `age_range = (0, 19)`
and `mandatory_age_range = (5, 18)`, a 19-year-old is rejected by BOTH school
eligibility tests: the `age_range` endpoints are compared strictly in
`distribute_non_mandatory_kids_to_school`, so the claim that a 19-year-old is
still school-eligible is false. -/
theorem schoolEligible_age19_counterexample :
    mandatoryEligible ⟨35, (0, 19), (5, 18)⟩ 19 = false ∧
      nonMandatoryEligible ⟨35, (0, 19), (5, 18)⟩ 19 = false := by
  decide

/-- **C6 (amended).** Care-home age-band draws are inclusive on both ends
(a pool draw over band `a-b` admits exactly the ages `a` through `b`), and the
school distributor's `mandatory_age_range` endpoints are admitted ages; but
the `age_range` endpoints are NOT admitted: with the defaults, the
non-mandatory test admits exactly ages 1 through 4 (0, 19 and the mandatory
band excluded). -/
theorem ageRange_bounds_amended :
    (∀ (d : PeopleByAge) (a1 a2 : Nat) (p : Person), WFDict d →
      (p ∈ availablePeople d a1 a2 ↔
        a1 ≤ p.age ∧ p.age ≤ a2 ∧ p ∈ lookupAge d p.age)) ∧
    (∀ age : Nat,
      mandatoryEligible ⟨35, (0, 19), (5, 18)⟩ age = true ↔ 5 ≤ age ∧ age ≤ 18) ∧
    (∀ age : Nat,
      nonMandatoryEligible ⟨35, (0, 19), (5, 18)⟩ age = true ↔
        1 ≤ age ∧ age ≤ 4) := by
  refine ⟨fun d a1 a2 p hwf => mem_availablePeople hwf.1, ?_, ?_⟩
  · intro age
    simp only [mandatoryEligible, Bool.and_eq_true, decide_eq_true_eq]
    omega
  · intro age
    simp only [nonMandatoryEligible, Bool.or_eq_true, Bool.and_eq_true,
      decide_eq_true_eq]
    omega

/-- Concrete pool for the C6 witness. -/
def dEx6 : PeopleByAge := [(74, [⟨4, 74, 'f'⟩]), (75, [⟨5, 75, 'f'⟩])]

/-- Witness for the amended C6: band `"65-74"` admits the 74-year-old. -/
theorem ageRange_bounds_amended_witness :
    (⟨4, 74, 'f'⟩ : Person) ∈ availablePeople dEx6 65 74 ↔
      65 ≤ (74 : Nat) ∧ (74 : Nat) ≤ 74 ∧
        (⟨4, 74, 'f'⟩ : Person) ∈ lookupAge dEx6 74 :=
  ageRange_bounds_amended.1 dEx6 65 74 ⟨4, 74, 'f'⟩ (by decide)

/-- **C4.** The carer pool of `distribute_workers_to_care_homes` is exactly
the super area's workers with sector `"Q"`, no primary activity and no
sub-sector — but the teacher pool of `distribute_teachers_to_school` is
always EMPTY for workers whose sector is a scalar code, because the source
compares `person.sector == self.education_sector_label` against the whole
label list: a worker whose sector code appears in the configured list is
still excluded. -/
theorem workerPool_sector_match (label : List Int) (workers : List Worker)
    (hscalar : ∀ w ∈ workers, ∀ l : List Int, w.sector ≠ .pylist l) :
    teachersOf workers label = [] ∧
    (∀ ws : String, ∀ w : Worker, w ∈ carersOf workers ws ↔
      w ∈ workers ∧ w.sector = .pystr "Q" ∧ w.primaryActivity = .pynone ∧
        w.subSector = .pynone) := by
  constructor
  · rw [teachersOf, List.filter_eq_nil_iff]
    intro w hw hcontra
    exact hscalar w hw label ((pyEq_eq_true_iff _ _).mp hcontra)
  · intro ws w
    rw [carersOf, List.mem_filter]
    simp only [Bool.and_eq_true, decide_eq_true_eq, pyEq_eq_true_iff, and_assoc]

/-- Witness for C4: a worker whose sector is the configured code 2314 is not
in the teacher pool, and a `"Q"`-sector worker is in the carer pool. -/
theorem workerPool_sector_match_witness :
    teachersOf [⟨0, .pyint 2314, .pynone, .pynone⟩] educationSectorLabel = [] :=
  (workerPool_sector_match educationSectorLabel
    [⟨0, .pyint 2314, .pynone, .pynone⟩]
    (by
      intro w hw l
      rw [List.mem_singleton] at hw
      subst hw
      exact fun h => PyVal.noConfusion h)).1

/-- **C5.** `populate_care_homes_in_super_areas` does NOT sort the age-band
keys by integer lower bound descending: `age_range[0]` is the FIRST CHARACTER
of the label, so with the bands `"15-19"` and `"5-9"` the code's order puts
`"5-9"` (lower bound 5) before `"15-19"` (lower bound 15) because the
character `'5'` compares above `'1'`. -/
theorem careHome_sort_first_char_bug :
    bandsFromStats [(key15_19, 1), (key5_9, 1)] =
      [⟨5, 9, 1⟩, ⟨15, 19, 1⟩] ∧
    bandLowerBound key15_19 = 15 ∧ bandLowerBound key5_9 = 5 := by
  refine ⟨?_, ?_, ?_⟩ <;> decide

/-- **C1.** The capacity check of `populate_care_homes_in_super_areas` guards
only the entry to the band loop, so one visit to an area can add one resident
per age band after a single check: a care home with `n_residents = 1` and two
positive band targets ends up with 2 residents — occupancy exceeds the
declared residential capacity. -/
theorem careHome_capacity_exceeded_bug :
    populateCareHomesMen [(key80_89, 1), (key70_79, 1)]
        [(⟨1, []⟩, [⟨10, 85, 'm'⟩, ⟨11, 75, 'm'⟩])] (fun _ => 0) =
      some ([⟨⟨1, [⟨10, 85, 'm'⟩, ⟨11, 75, 'm'⟩]⟩, []⟩],
        [⟨80, 89, 0⟩, ⟨70, 79, 0⟩], 2) ∧
    (⟨1, [⟨10, 85, 'm'⟩, ⟨11, 75, 'm'⟩]⟩ : CareHome).nResidents <
      (⟨1, [⟨10, 85, 'm'⟩, ⟨11, 75, 'm'⟩]⟩ : CareHome).residents.length := by
  constructor <;> decide

/-- **C2.** In `distribute_mandatory_kids_to_school` the memo
`is_school_full[age]` is set as soon as the FIRST candidate is full, not when
all `N` are: with candidates `[full school 0, empty school 1]`, the first
10-year-old is placed in school 1 (which still has room afterwards), but the
memo is now `True`, so the second 10-year-old is assigned at random — here to
the full school 0, beyond its total capacity — although candidate 1 has
vacancy.  This contradicts the claim that random assignment happens only when
every one of the `N` candidates is at or over total capacity. -/
theorem mandatory_memo_poisoning_bug :
    distributeMandatoryKidsToSchool ⟨2, (0, 19), (5, 18)⟩ [(10, [0, 1])]
        (fun _ => 0) [⟨100, 10, 'm'⟩, ⟨101, 10, 'm'⟩]
        ([⟨5, 5, 5, 18, [], []⟩, ⟨5, 0, 5, 18, [], []⟩], [(10, false)], 0) =
      ([⟨5, 6, 5, 18, [], [101]⟩, ⟨5, 1, 5, 18, [], [100]⟩], [(10, true)], 2) ∧
    (getSchool [⟨5, 6, 5, 18, [], [101]⟩, ⟨5, 1, 5, 18, [], [100]⟩] 1).nPupils <
      (getSchool [⟨5, 6, 5, 18, [], [101]⟩, ⟨5, 1, 5, 18, [], [100]⟩] 1).nPupilsMax ∧
    (getSchool [⟨5, 6, 5, 18, [], [101]⟩, ⟨5, 1, 5, 18, [], [100]⟩] 0).nPupilsMax <
      (getSchool [⟨5, 6, 5, 18, [], [101]⟩, ⟨5, 1, 5, 18, [], [100]⟩] 0).nPupils := by
  refine ⟨?_, ?_, ?_⟩ <;> decide

/-- **C3.** In `distribute_non_mandatory_kids_to_school` the
`school.add(person, ...)` after the candidate scan runs UNCONDITIONALLY: when
every candidate is full by the per-cohort density measure the loop variable
retains the last examined school and the person is added to it anyway.  A
3-year-old with a single full candidate school is placed there (occupancy 11
over capacity 10) instead of being left unassigned. -/
theorem nonMandatory_overfull_assignment_bug :
    distributeNonMandatoryKidsToSchool ⟨2, (0, 19), (5, 18)⟩ [(3, [0])]
        [⟨200, 3, 'f'⟩] ([⟨10, 10, 0, 4, [0, 0, 0, 0, 0], []⟩], [(3, false)]) =
      ([⟨10, 11, 0, 4, [0, 0, 0, 0, 0], [200]⟩], [(3, false)]) ∧
    cohortFull ⟨10, 10, 0, 4, [0, 0, 0, 0, 0], []⟩ 3 = true := by
  constructor <;> decide

/-- **C8.** For every input with well-formed per-area pools, the greedy fill
loop of `populate_care_homes_in_super_areas` terminates — within at most
`totalPool as` productive passes, since each productive pass consumes at
least one pooled person — and it exits exactly after the first full pass
over all (care home, age-band) pairs that performs zero assignments: every
pass before the final one made at least one assignment, the final pass made
none, and the returned state is the one that final pass produced. -/
theorem fillLoop_terminates_at_first_idle_pass
    (rs : Nat → Nat) (as : List AreaCH) (bands : List Band) (t : Nat)
    (hwf : ∀ a ∈ as, WFDict a.pool) :
    ∃ n, n ≤ totalPool as ∧
      (∀ i < n, passProg rs (as, bands, t) i = true) ∧
      passProg rs (as, bands, t) n = false ∧
      fillLoopFuel rs (totalPool as + 1) as bands t =
        some (passState rs (as, bands, t) (n + 1)) := by
  obtain ⟨n, hn, hall, hstop, hres⟩ :=
    fillLoopFuel_spec rs (totalPool as + 1) as bands t hwf (by omega)
  exact ⟨n, by omega, hall, hstop, hres⟩

/-- Witness for C8 at a one-area, one-band input. -/
theorem fillLoop_terminates_at_first_idle_pass_witness :
    ∃ n, n ≤ totalPool [⟨⟨1, []⟩, [(85, [⟨10, 85, 'm'⟩])]⟩] ∧
      (∀ i < n, passProg (fun _ => 0)
        ([⟨⟨1, []⟩, [(85, [⟨10, 85, 'm'⟩])]⟩], [⟨80, 89, 1⟩], 0) i = true) ∧
      passProg (fun _ => 0)
        ([⟨⟨1, []⟩, [(85, [⟨10, 85, 'm'⟩])]⟩], [⟨80, 89, 1⟩], 0) n = false ∧
      fillLoopFuel (fun _ => 0)
          (totalPool [⟨⟨1, []⟩, [(85, [⟨10, 85, 'm'⟩])]⟩] + 1)
          [⟨⟨1, []⟩, [(85, [⟨10, 85, 'm'⟩])]⟩] [⟨80, 89, 1⟩] 0 =
        some (passState (fun _ => 0)
          ([⟨⟨1, []⟩, [(85, [⟨10, 85, 'm'⟩])]⟩], [⟨80, 89, 1⟩], 0) (n + 1)) :=
  fillLoop_terminates_at_first_idle_pass (fun _ => 0)
    [⟨⟨1, []⟩, [(85, [⟨10, 85, 'm'⟩])]⟩] [⟨80, 89, 1⟩] 0 (by decide)

/-- **C10.** `Stations.get_closest_station` raises
`ValueError("Stations initialized without a BallTree")` for every query
whenever `_construct_ball_tree` has not run — in that state it never returns
a station — and after construction over a non-empty member list it always
returns a member of the collection. -/
theorem getClosestStation_spec (members : List Station) (q : ℝ × ℝ) :
    getClosestStation ⟨members, none⟩ q =
      .error "Stations initialized without a BallTree" ∧
    (members ≠ [] → ∃ st ∈ members,
      getClosestStation (constructBallTree ⟨members, none⟩) q = .ok st) := by
  constructor
  · rfl
  · intro hne
    have hidx : queryNearestIdx
        (members.map (fun st => (radiansR st.coords.1, radiansR st.coords.2)))
        (radiansR q.1, radiansR q.2) < members.length := by
      have h1 : ((members.map
          (fun st => (radiansR st.coords.1, radiansR st.coords.2))).map
            (fun c => haversineMetricRad c (radiansR q.1, radiansR q.2))) ≠ [] := by
        simp [hne]
      have h2 := argminIdx_lt_length _ h1
      rw [List.length_map, List.length_map] at h2
      exact h2
    refine ⟨members.get ⟨queryNearestIdx
      (members.map (fun st => (radiansR st.coords.1, radiansR st.coords.2)))
      (radiansR q.1, radiansR q.2), hidx⟩, List.get_mem _ _ _, ?_⟩
    show (match members.get? (queryNearestIdx
        (members.map (fun st => (radiansR st.coords.1, radiansR st.coords.2)))
        (radiansR q.1, radiansR q.2)) with
      | some st => Except.ok st
      | none => Except.error "IndexError") = _
    rw [List.get?_eq_get hidx]

/-- Witness for C10 with a one-member collection. -/
theorem getClosestStation_spec_witness :
    getClosestStation ⟨[⟨0, ((0 : ℝ), (0 : ℝ))⟩], none⟩ ((1 : ℝ), (1 : ℝ)) =
      .error "Stations initialized without a BallTree" ∧
    ∃ st ∈ [(⟨0, ((0 : ℝ), (0 : ℝ))⟩ : Station)],
      getClosestStation
          (constructBallTree ⟨[⟨0, ((0 : ℝ), (0 : ℝ))⟩], none⟩)
          ((1 : ℝ), (1 : ℝ)) = .ok st :=
  ⟨(getClosestStation_spec [⟨0, ((0 : ℝ), (0 : ℝ))⟩] ((1 : ℝ), (1 : ℝ))).1,
    (getClosestStation_spec [⟨0, ((0 : ℝ), (0 : ℝ))⟩] ((1 : ℝ), (1 : ℝ))).2
      (by simp)⟩

/-- **C9.** `Stations.for_super_station` with `N = number_of_stations` and
`dist = distance_to_super_station` generates `N` station positions whose
bearings from the hub are `0, 2π/N, ..., (N-1)·2π/N` — equally spaced at
`2π/N` starting from bearing `0` — and each generated position lies at
great-circle (`_haversine_distance`, Earth radius 6371 km) distance exactly
`dist` from the hub coordinate (in exact real arithmetic; the hypotheses
exclude the degenerate pole and antipode cases of the projection formula). -/
theorem forSuperStation_layout (hub : ℝ × ℝ) (dist : ℝ) (n : Nat)
    (h1 : 0 < Real.cos (radiansR hub.1)) (h2 : 0 ≤ dist)
    (h3 : dist ≤ earthRadius * Real.pi)
    (hsafe : |Real.sin (radiansR hub.1)| * |Real.cos (dist / earthRadius)| +
      Real.cos (radiansR hub.1) * Real.sin (dist / earthRadius) < 1) :
    (stationPositions hub dist n).length = n ∧
    ∀ i : Nat, i < n →
      (stationPositions hub dist n).getD i (0, 0) =
        addDistanceToLatLon hub.1 hub.2 dist (i * (2 * Real.pi / n)) ∧
      haversineDistance hub ((stationPositions hub dist n).getD i (0, 0)) =
        dist := by
  constructor
  · exact stationPositionsAux_length hub dist _ n 0
  · intro i hi
    have hpos : (stationPositions hub dist n).getD i (0, 0) =
        addDistanceToLatLon hub.1 hub.2 dist (i * (2 * Real.pi / n)) := by
      unfold stationPositions
      rw [stationPositionsAux_getD hub dist _ n 0 i hi, zero_add]
    refine ⟨hpos, ?_⟩
    rw [hpos]
    exact haversine_addDistanceToLatLon hub.1 hub.2 dist _ h1 h2 h3 hsafe

/-- Witness for C9: a hub on the equator, one station at distance 6371 km. -/
theorem forSuperStation_layout_witness :
    (stationPositions (0, 0) 6371 1).length = 1 ∧
    ∀ i : Nat, i < 1 →
      (stationPositions (0, 0) 6371 1).getD i (0, 0) =
        addDistanceToLatLon (0, 0).1 (0, 0).2 6371
          (i * (2 * Real.pi / ((1 : Nat) : ℝ))) ∧
      haversineDistance (0, 0) ((stationPositions (0, 0) 6371 1).getD i (0, 0)) =
        6371 := by
  have hr0 : radiansR (0 : ℝ) = 0 := by
    unfold radiansR
    ring
  have h1 : 0 < Real.cos (radiansR ((0 : ℝ), (0 : ℝ)).1) := by
    rw [show ((0 : ℝ), (0 : ℝ)).1 = (0 : ℝ) from rfl, hr0, Real.cos_zero]
    norm_num
  have hquot : (6371 : ℝ) / earthRadius = 1 := by
    norm_num [earthRadius]
  have hsafe : |Real.sin (radiansR ((0 : ℝ), (0 : ℝ)).1)| *
      |Real.cos ((6371 : ℝ) / earthRadius)| +
      Real.cos (radiansR ((0 : ℝ), (0 : ℝ)).1) *
        Real.sin ((6371 : ℝ) / earthRadius) < 1 := by
    rw [show ((0 : ℝ), (0 : ℝ)).1 = (0 : ℝ) from rfl, hr0, hquot,
      Real.sin_zero, Real.cos_zero]
    have := Real.sin_lt one_pos
    simp only [abs_zero, zero_mul, one_mul, zero_add]
    linarith
  exact forSuperStation_layout (0, 0) 6371 1 h1 (by norm_num)
    (by
      rw [show (earthRadius : ℝ) = 6371 from rfl]
      nlinarith [Real.pi_gt_three]) hsafe

end June
